import Mathlib

/-!
Shallow embedding of the per-field state machine of `entity-ctrl`
(src/src/FieldCtrl.ts, first class definition, together with the type
declarations of src/src/types.ts).  JavaScript values are modelled by an
inductive `JSValue` (object identity is an explicit id), message and event
kinds by finite inductives, and the mutable `FieldCtrl` instance by the
structure `FieldState`.  Each public operation of the controller becomes a
function `FieldState → FieldState × List Param`, where the returned list is
the notification trace: the parameters for which the listener dispatcher
invokes callbacks (assuming listeners are registered for every parameter;
listener storage itself carries no state that the claims need).  Promise
settlement is modelled by the settled semantics: an operation's result is the
state after all deferred checks of its validation call have settled, with the
deferred callbacks applied in registration order (per-slot writes are unique
inside one call, so the settlement order does not affect the settled state).
Validation check functions are modelled as functions of the field value, the
only part of the controller state the built-in check reads.
-/

/-- JavaScript runtime values as far as FieldCtrl inspects them: the default
required check compares against `undefined`, `null`, the empty string and `0`;
everything else is only compared by identity (`Object.is`), which the `obj`
identifier models. -/
inductive JSValue where
  | undef
  | null
  | str (s : String)
  | num (n : Int)
  | bool (b : Bool)
  | obj (id : Nat)
deriving DecidableEq, Repr

/-- Message kinds of src/src/types.ts (`FieldMessageTypes`). -/
inductive MsgType where
  | error
  | warning
  | success
  | info
deriving DecidableEq, Repr

/-- Validation trigger events of src/src/types.ts (`ValidationEventTypes`). -/
inductive EventType where
  | touch
  | change
  | demand
deriving DecidableEq, Repr

/-- Observable field parameters plus the catch-all listener channel. -/
inductive Param where
  | value
  | touched
  | changed
  | error
  | warning
  | messages
  | any
deriving DecidableEq, Repr

/-- `FieldMessage` of src/src/types.ts: both fields optional. -/
structure FieldMessage where
  message : Option String
  type : Option MsgType
deriving DecidableEq, Repr

/-- Outcome of calling a rule's `validate` function: a synchronous boolean, a
synchronous throw, a promise that resolves to a boolean, or a promise that
rejects. -/
inductive CheckBehavior where
  | syncRet (b : Bool)
  | syncThrow
  | asyncRet (b : Bool)
  | asyncReject

/-- `FieldValidationRule` of src/src/types.ts.  The `validate` function is
modelled as a function of the field value (the state component checks read). -/
structure Rule where
  message : Option String
  type : Option MsgType
  validate : Option (JSValue → CheckBehavior)
  typeIfPassed : Option MsgType
  validateOn : Option EventType

/-- `FieldRequired`: `boolean | string | FieldValidationRule`. -/
inductive Required where
  | bool (b : Bool)
  | str (s : String)
  | rule (r : Rule)

/-- `FieldValidation` of src/src/types.ts.  `rules` is a JS array whose
entries the loop guards with `if (rule)`, hence `Option Rule` entries. -/
structure Validation where
  rules : Option (List (Option Rule))
  required : Option Required
  validateOn : Option EventType
  requiredValidate : Option (JSValue → CheckBehavior)
  requiredMessage : Option String

/-- `ValidationOptions` read from the parent entity
(`this.parent?.validationOptions`). -/
structure ParentOpts where
  validateOn : Option EventType
  requiredValidate : Option (JSValue → CheckBehavior)
  requiredMessage : Option String

/-- `holdValidation : boolean | ValidationEventType[]`. -/
inductive HoldV where
  | hbool (b : Bool)
  | hlist (l : List EventType)

/-- `holdListeners : boolean | FieldParam[]`. -/
inductive HoldL where
  | hbool (b : Bool)
  | hlist (l : List Param)

/-- The mutable state of one `FieldCtrl` instance (fields `_value`,
`_touched`, ... of src/src/FieldCtrl.ts), together with the public mutable
fields `defaultValue`, `holdValidation`, `holdListeners` and the parent
entity's `validationOptions`. -/
structure FieldState where
  value : JSValue
  defaultValue : JSValue
  touched : Nat
  changed : Nat
  error : Bool
  warning : Bool
  messages : Option (List FieldMessage)
  validation : Option Validation
  requiredMessage : Option FieldMessage
  rulesMessages : Option (List (Option FieldMessage))
  customMessages : Option (List FieldMessage)
  errorOverride : Option Bool
  warningOverride : Option Bool
  holdValidation : HoldV
  holdListeners : HoldL
  parentOpts : Option ParentOpts

/-- The constructor state (`new FieldCtrl(field, parent, defaultValue)`). -/
def initState (po : Option ParentOpts) (dv : JSValue) : FieldState where
  value := dv
  defaultValue := dv
  touched := 0
  changed := 0
  error := false
  warning := false
  messages := none
  validation := none
  requiredMessage := none
  rulesMessages := none
  customMessages := none
  errorOverride := none
  warningOverride := none
  holdValidation := .hbool false
  holdListeners := .hbool false
  parentOpts := po

/-- Whether dispatch for `p` is suppressed
(`holdListeners === true || holdListeners.includes(param)`). -/
def heldParam (h : HoldL) (p : Param) : Bool :=
  match h with
  | .hbool b => b
  | .hlist l => l.any (fun q => q = p)

/-- One `_triggerListeners(param, prev)` call: the dispatcher fires exactly
when the parameter changed and dispatch is not held. -/
def emitIfChanged (h : HoldL) (p : Param) (changed : Bool) : List Param :=
  if changed && !(heldParam h p) then [p] else []

/-- `_triggerListeners('any')`: no change check, only the hold check. -/
def emitAny (h : HoldL) : List Param :=
  if heldParam h .any then [] else [.any]

/-- The ordered message list the three private sources compose to: required
message first, then rule messages in slot order skipping empty slots, then
custom messages (`processInternalMessage` push order in `_updateMessages`). -/
def composeSources (s : FieldState) : List FieldMessage :=
  (match s.requiredMessage with
   | some m => [m]
   | none => []) ++
  (s.rulesMessages.getD []).filterMap id ++
  (s.customMessages.getD [])

/-- `true` if some message in the list has the given kind. -/
def anyOfType (l : List FieldMessage) (t : MsgType) : Bool :=
  l.any (fun m => m.type = some t)

/-- The partial-recompute mode argument of `_updateMessages`. -/
inductive OnlyMode where
  | full
  | onlyError
  | onlyWarning
deriving DecidableEq

/-- Embedding of `_updateMessages(only?, skipListeners?)`.  In full mode the
message list is rebuilt (a fresh array in JS, hence the identity-based
`messages` change check below is `false` only when the list was and stays
null); in the partial modes only the corresponding flag is recomputed from
the current sources, honouring the override.  Returns the new state and the
notification trace. -/
def updateMessages (s : FieldState) (only : OnlyMode) (skipListeners : Bool) :
    FieldState × List Param :=
  let src := composeSources s
  let newMessages : Option (List FieldMessage) :=
    match only with
    | .full => if src.isEmpty then none else some src
    | _ => s.messages
  let newError : Bool :=
    match only with
    | .onlyWarning => s.error
    | _ => s.errorOverride.getD (anyOfType src .error)
  let newWarning : Bool :=
    match only with
    | .onlyError => s.warning
    | _ => s.warningOverride.getD (anyOfType src .warning)
  let s' := { s with messages := newMessages, error := newError, warning := newWarning }
  let trace :=
    if skipListeners then []
    else
      let eC : Bool := !(newError = s.error)
      let wC : Bool := !(newWarning = s.warning)
      let mC : Bool :=
        match only with
        | .full => !(s.messages.isNone && newMessages.isNone)
        | _ => false
      emitIfChanged s.holdListeners .error eC ++
      emitIfChanged s.holdListeners .warning wC ++
      emitIfChanged s.holdListeners .messages mC ++
      (if eC || wC || mC then emitAny s.holdListeners else [])
  (s', trace)

theorem updateMessages_frame (s : FieldState) (o : OnlyMode) (sk : Bool) :
    (updateMessages s o sk).1.value = s.value ∧
    (updateMessages s o sk).1.defaultValue = s.defaultValue ∧
    (updateMessages s o sk).1.touched = s.touched ∧
    (updateMessages s o sk).1.changed = s.changed ∧
    (updateMessages s o sk).1.validation = s.validation ∧
    (updateMessages s o sk).1.requiredMessage = s.requiredMessage ∧
    (updateMessages s o sk).1.rulesMessages = s.rulesMessages ∧
    (updateMessages s o sk).1.customMessages = s.customMessages ∧
    (updateMessages s o sk).1.errorOverride = s.errorOverride ∧
    (updateMessages s o sk).1.warningOverride = s.warningOverride ∧
    (updateMessages s o sk).1.holdValidation = s.holdValidation ∧
    (updateMessages s o sk).1.holdListeners = s.holdListeners ∧
    (updateMessages s o sk).1.parentOpts = s.parentOpts := by
  simp [updateMessages]

/-- Modelled from the spec: `everyTruthy` of src/utils.ts is not present under
src/; spec 4.2 step 7 describes the combination as "the logical AND of all
individual outcomes (true only if every check passed)". -/
def everyTruthy (l : List Bool) : Bool :=
  l.all id

/-- Modelled from the spec: `shallowEqual` of src/utils.ts is not present
under src/; spec 4.2 step 6 describes the comparison of a freshly composed
message with the previously stored one as "shallow field-by-field equality",
which on two-field message records is structural equality, and is false when
no message is stored in the slot. -/
def shallowEqualMsg (old : Option FieldMessage) (m : FieldMessage) : Bool :=
  match old with
  | some m' => m' = m
  | none => false

/-- Slot identifiers of `validateRule`: the required slot or a rule index. -/
inductive RuleId where
  | required
  | idx (i : Nat)
deriving DecidableEq, Repr

/-- Read `rulesMessages[i]` (a hole or an out-of-range read is `undefined`). -/
def slotAt (l : List (Option FieldMessage)) (i : Nat) : Option FieldMessage :=
  (l.getD i none)

/-- `rulesMessages[i] = m`: JS index assignment, padding with holes when the
index is beyond the current length. -/
def setSlot (l : List (Option FieldMessage)) (i : Nat) (m : FieldMessage) :
    List (Option FieldMessage) :=
  if i < l.length then l.set i (some m)
  else l ++ List.replicate (i - l.length) none ++ [some m]

/-- `delete rulesMessages[i]`: leaves a hole, keeps the length, and is a
no-op beyond the length. -/
def delSlot (l : List (Option FieldMessage)) (i : Nat) : List (Option FieldMessage) :=
  l.set i none

/-- The slot state `validateRule` threads: the required message, the rule
message array and the `needUpdate` flag. -/
structure SlotAcc where
  req : Option FieldMessage
  rl : List (Option FieldMessage)
  needUpdate : Bool

/-- The slot update performed by `processPassed` once a check has settled:
`some m` stores the composed message (when different from the stored one),
`none` clears the slot (when one was stored); either way `needUpdate` is set
exactly when the slot actually changed. -/
def applySlot (acc : SlotAcc) (id : RuleId) (desired : Option FieldMessage) : SlotAcc :=
  match id, desired with
  | .required, some m =>
      if shallowEqualMsg acc.req m then acc else { acc with req := some m, needUpdate := true }
  | .required, none =>
      if acc.req.isSome then { acc with req := none, needUpdate := true } else acc
  | .idx i, some m =>
      if shallowEqualMsg (slotAt acc.rl i) m then acc
      else { acc with rl := setSlot acc.rl i m, needUpdate := true }
  | .idx i, none =>
      if (slotAt acc.rl i).isSome then { acc with rl := delSlot acc.rl i, needUpdate := true }
      else acc

/-- The message `processPassed` wants in the slot for a settled outcome:
`{message: rule.message, type: passed ? rule.typeIfPassed : rule.type || 'error'}`
when that kind is present, otherwise a cleared slot. -/
def processPassed (r : Rule) (passed : Bool) : Option FieldMessage :=
  let msgType : Option MsgType := if passed then r.typeIfPassed else some (r.type.getD .error)
  match msgType with
  | some t => some { message := r.message, type := some t }
  | none => none

/-- Settled outcome of `rule.validate(this)` inside the try/catch of
`validateRule`: a missing function or a synchronous throw leaves
`passedMaybePromise` at `false`; a rejected promise is mapped to `false` by
`.catch(() => false)`.  Returns `(isAsync, passed)`. -/
def itemSettled (r : Rule) (v : JSValue) : Bool × Bool :=
  match r.validate with
  | none => (false, false)
  | some f =>
    match f v with
    | .syncRet b => (false, b)
    | .syncThrow => (false, false)
    | .asyncRet b => (true, b)
    | .asyncReject => (true, false)

/-- `this._getValidationDefault('validateOn')`: the parent entity's option,
else the system default `'demand'`. -/
def defaultValidateOn (s : FieldState) : EventType :=
  (s.parentOpts.bind (fun p => p.validateOn)).getD .demand

/-- `rule.validateOn || validation.validateOn || this._getValidationDefault('validateOn')`. -/
def resolveOn (s : FieldState) (cfg : Validation) (r : Rule) : EventType :=
  r.validateOn.getD (cfg.validateOn.getD (defaultValidateOn s))

/-- The `shouldValidate` decision of `validateRule`: with an event type, run
when the resolved trigger equals it, `'touch'` also satisfying `'change'`;
without one, run unless a list-form `holdValidation` lists the trigger. -/
def shouldValidate (h : HoldV) (et : Option EventType) (ron : EventType) : Bool :=
  match et with
  | some e => ron = e || (e = .touch && ron = .change)
  | none =>
    match h with
    | .hlist l => !(l.any (fun q => q = ron))
    | .hbool _ => true

/-- The `holdForSure` short-circuit of `_validate`:
`holdValidation && (holdValidation === true || (eventType && holdValidation.includes(eventType)))`. -/
def holdForSure (h : HoldV) (et : Option EventType) : Bool :=
  match h with
  | .hbool b => b
  | .hlist l =>
    match et with
    | some e => l.any (fun q => q = e)
    | none => false

/-- Truthiness of `validation.required` (`false` and the empty string are
falsy, a rule object is truthy). -/
def requiredTruthy (r : Required) : Bool :=
  match r with
  | .bool b => b
  | .str s => !(s = "")
  | .rule _ => true

/-- `validation.requiredValidate || this._getValidationDefault('requiredValidate')`
with the built-in default check
`value !== undefined && value !== null && value !== '' && value !== 0`. -/
def resolveRequiredValidate (s : FieldState) (cfg : Validation) : JSValue → CheckBehavior :=
  fun v =>
    match cfg.requiredValidate with
    | some f => f v
    | none =>
      match s.parentOpts.bind (fun p => p.requiredValidate) with
      | some f => f v
      | none =>
        .syncRet (!(v = .undef) && !(v = .null) && !(v = .str "") && !(v = .num 0))

/-- `this._getValidationDefault('requiredMessage')`: the parent entity's
message when truthy (non-empty), else `'Required field'`; the `||` chain makes
an empty parent string fall through to the default. -/
def resolveRequiredMessage (s : FieldState) : String :=
  match s.parentOpts.bind (fun p => p.requiredMessage) with
  | some m => if m = "" then "Required field" else m
  | none => "Required field"

/-- The rule handed to `validateRule` for the required check: a rule object is
used as is; `true` or a string build `{type:'error'}` with the resolved check
function and message.  For a boolean `required` the message comes from
`this._getValidationDefault('requiredMessage')` alone — the config-level
`validation.requiredMessage` option is never read by the code; for a string
`required` the message is that string. -/
def buildRequiredRule (s : FieldState) (cfg : Validation) (r : Required) : Rule :=
  match r with
  | .rule ru => ru
  | .bool _ =>
      { message := some (resolveRequiredMessage s)
        type := some .error
        validate := some (resolveRequiredValidate s cfg)
        typeIfPassed := none
        validateOn := none }
  | .str m =>
      { message := some m
        type := some .error
        validate := some (resolveRequiredValidate s cfg)
        typeIfPassed := none
        validateOn := none }

/-- The indexed walk over `validation.rules` (`if (rule) validateRule(rule, i)`). -/
def rulesItems : List (Option Rule) → Nat → List (RuleId × Rule)
  | [], _ => []
  | none :: rest, i => rulesItems rest (i + 1)
  | some r :: rest, i => (RuleId.idx i, r) :: rulesItems rest (i + 1)

/-- The required work-list item: present exactly when `validation.required`
is configured and truthy. -/
def requiredItems (s : FieldState) (cfg : Validation) : List (RuleId × Rule) :=
  match cfg.required with
  | some r =>
    if requiredTruthy r then [(RuleId.required, buildRequiredRule s cfg r)] else []
  | none => []

/-- The ordered work list of one `_validate` call: the required check first
(when `validation.required` is truthy), then the configured rules in array
order. -/
def workList (s : FieldState) (cfg : Validation) : List (RuleId × Rule) :=
  requiredItems s cfg ++ rulesItems (cfg.rules.getD []) 0

/-- The work-list items whose `shouldValidate` is true, i.e. the checks that
actually run. -/
def executedItems (s : FieldState) (cfg : Validation) (et : Option EventType) :
    List (RuleId × Rule) :=
  (workList s cfg).filter (fun p => shouldValidate s.holdValidation et (resolveOn s cfg p.2))

/-- One executed check, fully settled: its slot, whether it was asynchronous,
its settled boolean and the slot content it asks for. -/
structure ItemRun where
  id : RuleId
  isAsync : Bool
  passed : Bool
  desired : Option FieldMessage

/-- Settle one executed work-list item against the current value. -/
def itemRun (v : JSValue) (p : RuleId × Rule) : ItemRun :=
  let ab := itemSettled p.2 v
  { id := p.1, isAsync := ab.1, passed := ab.2, desired := processPassed p.2 ab.2 }

/-- All executed checks of one `_validate` call, settled, in work-list order. -/
def runs (s : FieldState) (cfg : Validation) (et : Option EventType) : List ItemRun :=
  (executedItems s cfg et).map (itemRun s.value)

/-- Apply one settled check's `processPassed` slot update. -/
def applyRun (acc : SlotAcc) (r : ItemRun) : SlotAcc :=
  applySlot acc r.id r.desired

/-- Apply a list of settled checks in order. -/
def applyRuns (acc : SlotAcc) (rs : List ItemRun) : SlotAcc :=
  rs.foldl applyRun acc

/-- Result of `_validate(eventType, skipSyncListeners)` under the settled
semantics.  `retState`/`retUpdated` describe the synchronous return point
(only synchronous checks applied); `settled` is the state after every
deferred check has settled and, when the synchronously captured `needUpdate`
was set, the one deferred `_updateMessages()` has run — the capture happens
in the synchronously evaluated conditional that selects `processBools`, so
slot changes made only by deferred checks do not trigger a recompute.
`syncTrace` are the notifications of the synchronous recompute, `settledTrace`
those of the deferred one. -/
structure VRes where
  retState : FieldState
  retUpdated : Bool
  settled : FieldState
  syncTrace : List Param
  settledTrace : List Param
  result : Bool
  executed : List RuleId

/-- The tail of `_validate` after the loop: the synchronous return point uses
the synchronous slot state `accS`, the settled state the final slot state
`accF`; the recompute decision reads the synchronously captured
`accS.needUpdate` in both cases, and only the synchronous (non-promisified)
recompute honours `skipSyncListeners`. -/
def finishValidate (s : FieldState) (sk : Bool) (accS accF : SlotAcc)
    (promisified result : Bool) (executed : List RuleId) : VRes :=
  let retState := { s with requiredMessage := accS.req, rulesMessages := some accS.rl }
  let settled0 := { s with requiredMessage := accF.req, rulesMessages := some accF.rl }
  if promisified then
    if accS.needUpdate then
      let u := updateMessages settled0 .full false
      { retState := retState, retUpdated := false, settled := u.1, syncTrace := [],
        settledTrace := u.2, result := result, executed := executed }
    else
      { retState := retState, retUpdated := false, settled := settled0, syncTrace := [],
        settledTrace := [], result := result, executed := executed }
  else
    if accS.needUpdate then
      let u := updateMessages settled0 .full sk
      { retState := u.1, retUpdated := true, settled := u.1, syncTrace := u.2,
        settledTrace := [], result := result, executed := executed }
    else
      { retState := settled0, retUpdated := false, settled := settled0, syncTrace := [],
        settledTrace := [], result := result, executed := executed }

/-- Embedding of `_validate(eventType?, skipSyncListeners?)`. -/
def validateE (s : FieldState) (et : Option EventType) (skipSyncListeners : Bool) : VRes :=
  match s.validation with
  | none =>
      { retState := s, retUpdated := false, settled := s, syncTrace := [], settledTrace := [],
        result := true, executed := [] }
  | some cfg =>
    if holdForSure s.holdValidation et then
      { retState := s, retUpdated := false, settled := s, syncTrace := [], settledTrace := [],
        result := true, executed := [] }
    else
      let rl0 := s.rulesMessages.getD []
      let rs := runs s cfg et
      let syncRs := rs.filter (fun r => !r.isAsync)
      let asyncRs := rs.filter (fun r => r.isAsync)
      let accS := applyRuns { req := s.requiredMessage, rl := rl0, needUpdate := false } syncRs
      finishValidate s skipSyncListeners accS (applyRuns accS asyncRs) (!asyncRs.isEmpty)
        (everyTruthy (rs.map (fun r => r.passed))) (rs.map (fun r => r.id))

/-- The `value` setter: replace the value, bump `changed`, run validation for
event `'change'` with `skipSyncListeners`, then notify value, changed, error,
warning, messages (against pre-mutation snapshots) and the catch-all channel;
notifications of a deferred recompute follow after settlement. -/
def opSetValue (s : FieldState) (v : JSValue) : FieldState × List Param :=
  let prevValue := s.value
  let prevChanged := s.changed
  let prevError := s.error
  let prevWarning := s.warning
  let prevMessages := s.messages
  let s1 := { s with value := v, changed := s.changed + 1 }
  let vr := validateE s1 (some .change) true
  let r := vr.retState
  let h := s.holdListeners
  let tr :=
    emitIfChanged h .value (!(r.value = prevValue)) ++
    emitIfChanged h .changed (!(r.changed = prevChanged)) ++
    emitIfChanged h .error (!(r.error = prevError)) ++
    emitIfChanged h .warning (!(r.warning = prevWarning)) ++
    emitIfChanged h .messages (vr.retUpdated && !(prevMessages.isNone && r.messages.isNone)) ++
    emitAny h
  (vr.settled, tr ++ vr.settledTrace)

/-- `touch(value)`: like the value setter but also bumps `touched` and tags
the validation event `'touch'`. -/
def opTouch (s : FieldState) (v : JSValue) : FieldState × List Param :=
  let prevValue := s.value
  let prevTouched := s.touched
  let prevChanged := s.changed
  let prevError := s.error
  let prevWarning := s.warning
  let prevMessages := s.messages
  let s1 := { s with value := v, touched := s.touched + 1, changed := s.changed + 1 }
  let vr := validateE s1 (some .touch) true
  let r := vr.retState
  let h := s.holdListeners
  let tr :=
    emitIfChanged h .value (!(r.value = prevValue)) ++
    emitIfChanged h .touched (!(r.touched = prevTouched)) ++
    emitIfChanged h .changed (!(r.changed = prevChanged)) ++
    emitIfChanged h .error (!(r.error = prevError)) ++
    emitIfChanged h .warning (!(r.warning = prevWarning)) ++
    emitIfChanged h .messages (vr.retUpdated && !(prevMessages.isNone && r.messages.isNone)) ++
    emitAny h
  (vr.settled, tr ++ vr.settledTrace)

/-- The direct `touched` setter: overwrite the counter, notify only `touched`. -/
def opSetTouched (s : FieldState) (t : Nat) : FieldState × List Param :=
  ({ s with touched := t }, emitIfChanged s.holdListeners .touched (!(t = s.touched)))

/-- The direct `changed` setter: overwrite the counter, notify only `changed`. -/
def opSetChanged (s : FieldState) (c : Nat) : FieldState × List Param :=
  ({ s with changed := c }, emitIfChanged s.holdListeners .changed (!(c = s.changed)))

/-- The `errorOverride` setter: a no-op on an identical value; a boolean pins
`error` and notifies only that flag; `null` re-derives only `error` via
`_updateMessages('onlyError')`. -/
def opSetErrorOverride (s : FieldState) (o : Option Bool) : FieldState × List Param :=
  if s.errorOverride = o then (s, [])
  else
    let s1 := { s with errorOverride := o }
    match o with
    | none => updateMessages s1 .onlyError false
    | some b =>
      let prev := s1.error
      ({ s1 with error := b }, emitIfChanged s1.holdListeners .error (!(b = prev)))

/-- The `warningOverride` setter, mirror image of `errorOverride`. -/
def opSetWarningOverride (s : FieldState) (o : Option Bool) : FieldState × List Param :=
  if s.warningOverride = o then (s, [])
  else
    let s1 := { s with warningOverride := o }
    match o with
    | none => updateMessages s1 .onlyWarning false
    | some b =>
      let prev := s1.warning
      ({ s1 with warning := b }, emitIfChanged s1.holdListeners .warning (!(b = prev)))

/-- The `customMessages` setter: replace the source and run a full recompute. -/
def opSetCustomMessages (s : FieldState) (m : Option (List FieldMessage)) :
    FieldState × List Param :=
  updateMessages { s with customMessages := m } .full false

/-- `clearValidated()`: early return when both validation sources are already
null, otherwise drop them and recompute. -/
def opClearValidated (s : FieldState) : FieldState × List Param :=
  if s.requiredMessage.isNone && s.rulesMessages.isNone then (s, [])
  else updateMessages { s with requiredMessage := none, rulesMessages := none } .full false

/-- `clear()`: drop all three message sources and both overrides, recompute. -/
def opClear (s : FieldState) : FieldState × List Param :=
  updateMessages
    { s with requiredMessage := none, rulesMessages := none, customMessages := none,
             errorOverride := none, warningOverride := none } .full false

/-- `reset()`: restore `defaultValue`, zero the counters, `clear()`, then
notify value, touched and changed against the pre-mutation snapshots. -/
def opReset (s : FieldState) : FieldState × List Param :=
  let prevValue := s.value
  let prevTouched := s.touched
  let prevChanged := s.changed
  let s1 := { s with value := s.defaultValue, touched := 0, changed := 0 }
  let c := opClear s1
  let s2 := c.1
  let h := s.holdListeners
  (s2,
    c.2 ++
    emitIfChanged h .value (!(s2.value = prevValue)) ++
    emitIfChanged h .touched (!(s2.touched = prevTouched)) ++
    emitIfChanged h .changed (!(s2.changed = prevChanged)))

/-- The empty config object created by `this._validation || {}`. -/
def emptyValidation : Validation :=
  { rules := none, required := none, validateOn := none, requiredValidate := none,
    requiredMessage := none }

/-- `validation.required === r`: strict equality compares booleans and strings
by value; for rule objects it is reference equality, and a rule object passed
to the setter is modelled as a fresh reference, hence never equal. -/
def requiredEq (old : Option Required) (r : Required) : Bool :=
  match old, r with
  | some (.bool b), .bool b' => b = b'
  | some (.str s), .str s' => s = s'
  | _, _ => false

/-- The `required` setter: ignore `false` with no config, ignore an identical
value, otherwise store it and, when a stale required message exists, drop it
and recompute. -/
def opSetRequired (s : FieldState) (r : Required) : FieldState × List Param :=
  if (match r, s.validation with
      | .bool false, none => true
      | _, _ => false) then (s, [])
  else
    let v0 := s.validation.getD emptyValidation
    if requiredEq v0.required r then (s, [])
    else
      let s1 := { s with validation := some { v0 with required := some r } }
      if s1.requiredMessage.isSome then
        updateMessages { s1 with requiredMessage := none } .full false
      else (s1, [])

/-- The `validation` setter: store the (deep-copied) config and
`clearValidated()`.  On the pure data model the deep copy of the config is the
config itself; the reference structure of `_cloneValidation` is modelled
separately for the getter claim. -/
def opSetValidation (s : FieldState) (v : Option Validation) : FieldState × List Param :=
  opClearValidated { s with validation := v }

/-- Public `validate(eventType?)`, settled: state after all deferred checks,
with the synchronous recompute's notifications first. -/
def opValidate (s : FieldState) (et : Option EventType) : FieldState × List Param :=
  let vr := validateE s et false
  (vr.settled, vr.syncTrace ++ vr.settledTrace)

/-- Assignment to the public `holdValidation` field. -/
def opSetHoldValidation (s : FieldState) (h : HoldV) : FieldState × List Param :=
  ({ s with holdValidation := h }, [])

/-- Assignment to the public `holdListeners` field. -/
def opSetHoldListeners (s : FieldState) (h : HoldL) : FieldState × List Param :=
  ({ s with holdListeners := h }, [])

/-- Assignment to the public `defaultValue` field. -/
def opSetDefaultValue (s : FieldState) (v : JSValue) : FieldState × List Param :=
  ({ s with defaultValue := v }, [])

/-- Assignment to the parent entity's `validationOptions`. -/
def opSetParentOpts (s : FieldState) (po : Option ParentOpts) : FieldState × List Param :=
  ({ s with parentOpts := po }, [])

/-- The public operations on one field. -/
inductive Op where
  | setValue (v : JSValue)
  | touch (v : JSValue)
  | setTouched (n : Nat)
  | setChanged (n : Nat)
  | setErrorOverride (o : Option Bool)
  | setWarningOverride (o : Option Bool)
  | setCustomMessages (m : Option (List FieldMessage))
  | clearValidated
  | clear
  | reset
  | setRequired (r : Required)
  | setValidation (v : Option Validation)
  | validate (et : Option EventType)
  | setHoldValidation (h : HoldV)
  | setHoldListeners (h : HoldL)
  | setDefaultValue (v : JSValue)
  | setParentOpts (po : Option ParentOpts)

/-- Step function: run one public operation. -/
def step (s : FieldState) (op : Op) : FieldState × List Param :=
  match op with
  | .setValue v => opSetValue s v
  | .touch v => opTouch s v
  | .setTouched n => opSetTouched s n
  | .setChanged n => opSetChanged s n
  | .setErrorOverride o => opSetErrorOverride s o
  | .setWarningOverride o => opSetWarningOverride s o
  | .setCustomMessages m => opSetCustomMessages s m
  | .clearValidated => opClearValidated s
  | .clear => opClear s
  | .reset => opReset s
  | .setRequired r => opSetRequired s r
  | .setValidation v => opSetValidation s v
  | .validate et => opValidate s et
  | .setHoldValidation h => opSetHoldValidation s h
  | .setHoldListeners h => opSetHoldListeners s h
  | .setDefaultValue v => opSetDefaultValue s v
  | .setParentOpts po => opSetParentOpts s po

/-- States reachable from construction by public operations (with deferred
validation work settled after each operation). -/
inductive Reachable : FieldState → Prop where
  | init (po : Option ParentOpts) (dv : JSValue) : Reachable (initState po dv)
  | step (s : FieldState) (op : Op) : Reachable s → Reachable (step s op).1

@[simp]
theorem updateMessages_fst_value (s : FieldState) (o : OnlyMode) (sk : Bool) :
    (updateMessages s o sk).1.value = s.value := rfl

@[simp]
theorem updateMessages_fst_defaultValue (s : FieldState) (o : OnlyMode) (sk : Bool) :
    (updateMessages s o sk).1.defaultValue = s.defaultValue := rfl

@[simp]
theorem updateMessages_fst_touched (s : FieldState) (o : OnlyMode) (sk : Bool) :
    (updateMessages s o sk).1.touched = s.touched := rfl

@[simp]
theorem updateMessages_fst_changed (s : FieldState) (o : OnlyMode) (sk : Bool) :
    (updateMessages s o sk).1.changed = s.changed := rfl

@[simp]
theorem updateMessages_fst_validation (s : FieldState) (o : OnlyMode) (sk : Bool) :
    (updateMessages s o sk).1.validation = s.validation := rfl

@[simp]
theorem updateMessages_fst_requiredMessage (s : FieldState) (o : OnlyMode) (sk : Bool) :
    (updateMessages s o sk).1.requiredMessage = s.requiredMessage := rfl

@[simp]
theorem updateMessages_fst_rulesMessages (s : FieldState) (o : OnlyMode) (sk : Bool) :
    (updateMessages s o sk).1.rulesMessages = s.rulesMessages := rfl

@[simp]
theorem updateMessages_fst_customMessages (s : FieldState) (o : OnlyMode) (sk : Bool) :
    (updateMessages s o sk).1.customMessages = s.customMessages := rfl

@[simp]
theorem updateMessages_fst_errorOverride (s : FieldState) (o : OnlyMode) (sk : Bool) :
    (updateMessages s o sk).1.errorOverride = s.errorOverride := rfl

@[simp]
theorem updateMessages_fst_warningOverride (s : FieldState) (o : OnlyMode) (sk : Bool) :
    (updateMessages s o sk).1.warningOverride = s.warningOverride := rfl

@[simp]
theorem updateMessages_fst_holdValidation (s : FieldState) (o : OnlyMode) (sk : Bool) :
    (updateMessages s o sk).1.holdValidation = s.holdValidation := rfl

@[simp]
theorem updateMessages_fst_holdListeners (s : FieldState) (o : OnlyMode) (sk : Bool) :
    (updateMessages s o sk).1.holdListeners = s.holdListeners := rfl

@[simp]
theorem updateMessages_fst_parentOpts (s : FieldState) (o : OnlyMode) (sk : Bool) :
    (updateMessages s o sk).1.parentOpts = s.parentOpts := rfl


@[simp]
theorem updateMessages_fst_error (s : FieldState) (o : OnlyMode) (sk : Bool) :
    (updateMessages s o sk).1.error =
      (match o with
       | .onlyWarning => s.error
       | _ => s.errorOverride.getD (anyOfType (composeSources s) .error)) := rfl

@[simp]
theorem updateMessages_fst_warning (s : FieldState) (o : OnlyMode) (sk : Bool) :
    (updateMessages s o sk).1.warning =
      (match o with
       | .onlyError => s.warning
       | _ => s.warningOverride.getD (anyOfType (composeSources s) .warning)) := rfl

@[simp]
theorem updateMessages_fst_messages (s : FieldState) (o : OnlyMode) (sk : Bool) :
    (updateMessages s o sk).1.messages =
      (match o with
       | .full => if (composeSources s).isEmpty then none else some (composeSources s)
       | _ => s.messages) := rfl

@[simp]
theorem finishValidate_settled_value (s : FieldState) (sk : Bool) (aS aF : SlotAcc)
    (p r : Bool) (ex : List RuleId) :
    (finishValidate s sk aS aF p r ex).settled.value = s.value := by
  unfold finishValidate
  cases p <;> by_cases hn : aS.needUpdate = true <;> simp [hn]

@[simp]
theorem finishValidate_settled_defaultValue (s : FieldState) (sk : Bool) (aS aF : SlotAcc)
    (p r : Bool) (ex : List RuleId) :
    (finishValidate s sk aS aF p r ex).settled.defaultValue = s.defaultValue := by
  unfold finishValidate
  cases p <;> by_cases hn : aS.needUpdate = true <;> simp [hn]

@[simp]
theorem finishValidate_settled_touched (s : FieldState) (sk : Bool) (aS aF : SlotAcc)
    (p r : Bool) (ex : List RuleId) :
    (finishValidate s sk aS aF p r ex).settled.touched = s.touched := by
  unfold finishValidate
  cases p <;> by_cases hn : aS.needUpdate = true <;> simp [hn]

@[simp]
theorem finishValidate_settled_changed (s : FieldState) (sk : Bool) (aS aF : SlotAcc)
    (p r : Bool) (ex : List RuleId) :
    (finishValidate s sk aS aF p r ex).settled.changed = s.changed := by
  unfold finishValidate
  cases p <;> by_cases hn : aS.needUpdate = true <;> simp [hn]

@[simp]
theorem finishValidate_settled_validation (s : FieldState) (sk : Bool) (aS aF : SlotAcc)
    (p r : Bool) (ex : List RuleId) :
    (finishValidate s sk aS aF p r ex).settled.validation = s.validation := by
  unfold finishValidate
  cases p <;> by_cases hn : aS.needUpdate = true <;> simp [hn]

@[simp]
theorem finishValidate_settled_customMessages (s : FieldState) (sk : Bool) (aS aF : SlotAcc)
    (p r : Bool) (ex : List RuleId) :
    (finishValidate s sk aS aF p r ex).settled.customMessages = s.customMessages := by
  unfold finishValidate
  cases p <;> by_cases hn : aS.needUpdate = true <;> simp [hn]

@[simp]
theorem finishValidate_settled_errorOverride (s : FieldState) (sk : Bool) (aS aF : SlotAcc)
    (p r : Bool) (ex : List RuleId) :
    (finishValidate s sk aS aF p r ex).settled.errorOverride = s.errorOverride := by
  unfold finishValidate
  cases p <;> by_cases hn : aS.needUpdate = true <;> simp [hn]

@[simp]
theorem finishValidate_settled_warningOverride (s : FieldState) (sk : Bool) (aS aF : SlotAcc)
    (p r : Bool) (ex : List RuleId) :
    (finishValidate s sk aS aF p r ex).settled.warningOverride = s.warningOverride := by
  unfold finishValidate
  cases p <;> by_cases hn : aS.needUpdate = true <;> simp [hn]

@[simp]
theorem finishValidate_settled_holdValidation (s : FieldState) (sk : Bool) (aS aF : SlotAcc)
    (p r : Bool) (ex : List RuleId) :
    (finishValidate s sk aS aF p r ex).settled.holdValidation = s.holdValidation := by
  unfold finishValidate
  cases p <;> by_cases hn : aS.needUpdate = true <;> simp [hn]

@[simp]
theorem finishValidate_settled_holdListeners (s : FieldState) (sk : Bool) (aS aF : SlotAcc)
    (p r : Bool) (ex : List RuleId) :
    (finishValidate s sk aS aF p r ex).settled.holdListeners = s.holdListeners := by
  unfold finishValidate
  cases p <;> by_cases hn : aS.needUpdate = true <;> simp [hn]

@[simp]
theorem finishValidate_settled_parentOpts (s : FieldState) (sk : Bool) (aS aF : SlotAcc)
    (p r : Bool) (ex : List RuleId) :
    (finishValidate s sk aS aF p r ex).settled.parentOpts = s.parentOpts := by
  unfold finishValidate
  cases p <;> by_cases hn : aS.needUpdate = true <;> simp [hn]

@[simp]
theorem finishValidate_settled_requiredMessage (s : FieldState) (sk : Bool) (aS aF : SlotAcc)
    (p r : Bool) (ex : List RuleId) :
    (finishValidate s sk aS aF p r ex).settled.requiredMessage = aF.req := by
  unfold finishValidate
  cases p <;> by_cases hn : aS.needUpdate = true <;> simp [hn]

@[simp]
theorem finishValidate_settled_rulesMessages (s : FieldState) (sk : Bool) (aS aF : SlotAcc)
    (p r : Bool) (ex : List RuleId) :
    (finishValidate s sk aS aF p r ex).settled.rulesMessages = some aF.rl := by
  unfold finishValidate
  cases p <;> by_cases hn : aS.needUpdate = true <;> simp [hn]

@[simp]
theorem finishValidate_result (s : FieldState) (sk : Bool) (aS aF : SlotAcc)
    (p r : Bool) (ex : List RuleId) :
    (finishValidate s sk aS aF p r ex).result = r := by
  unfold finishValidate
  cases p <;> by_cases hn : aS.needUpdate = true <;> simp [hn]

@[simp]
theorem finishValidate_executed (s : FieldState) (sk : Bool) (aS aF : SlotAcc)
    (p r : Bool) (ex : List RuleId) :
    (finishValidate s sk aS aF p r ex).executed = ex := by
  unfold finishValidate
  cases p <;> by_cases hn : aS.needUpdate = true <;> simp [hn]

@[simp]
theorem validateE_settled_value (s : FieldState) (et : Option EventType) (sk : Bool) :
    (validateE s et sk).settled.value = s.value := by
  unfold validateE
  cases hv : s.validation with
  | none => rfl
  | some cfg => by_cases h : holdForSure s.holdValidation et = true <;> simp [h]

@[simp]
theorem validateE_settled_defaultValue (s : FieldState) (et : Option EventType) (sk : Bool) :
    (validateE s et sk).settled.defaultValue = s.defaultValue := by
  unfold validateE
  cases hv : s.validation with
  | none => rfl
  | some cfg => by_cases h : holdForSure s.holdValidation et = true <;> simp [h]

@[simp]
theorem validateE_settled_touched (s : FieldState) (et : Option EventType) (sk : Bool) :
    (validateE s et sk).settled.touched = s.touched := by
  unfold validateE
  cases hv : s.validation with
  | none => rfl
  | some cfg => by_cases h : holdForSure s.holdValidation et = true <;> simp [h]

@[simp]
theorem validateE_settled_changed (s : FieldState) (et : Option EventType) (sk : Bool) :
    (validateE s et sk).settled.changed = s.changed := by
  unfold validateE
  cases hv : s.validation with
  | none => rfl
  | some cfg => by_cases h : holdForSure s.holdValidation et = true <;> simp [h]

@[simp]
theorem validateE_settled_validation (s : FieldState) (et : Option EventType) (sk : Bool) :
    (validateE s et sk).settled.validation = s.validation := by
  unfold validateE
  cases hv : s.validation with
  | none => simpa using hv
  | some cfg =>
      by_cases h : holdForSure s.holdValidation et = true <;> simp [h, hv]

@[simp]
theorem validateE_settled_customMessages (s : FieldState) (et : Option EventType) (sk : Bool) :
    (validateE s et sk).settled.customMessages = s.customMessages := by
  unfold validateE
  cases hv : s.validation with
  | none => rfl
  | some cfg => by_cases h : holdForSure s.holdValidation et = true <;> simp [h]

@[simp]
theorem validateE_settled_errorOverride (s : FieldState) (et : Option EventType) (sk : Bool) :
    (validateE s et sk).settled.errorOverride = s.errorOverride := by
  unfold validateE
  cases hv : s.validation with
  | none => rfl
  | some cfg => by_cases h : holdForSure s.holdValidation et = true <;> simp [h]

@[simp]
theorem validateE_settled_warningOverride (s : FieldState) (et : Option EventType) (sk : Bool) :
    (validateE s et sk).settled.warningOverride = s.warningOverride := by
  unfold validateE
  cases hv : s.validation with
  | none => rfl
  | some cfg => by_cases h : holdForSure s.holdValidation et = true <;> simp [h]

@[simp]
theorem validateE_settled_holdValidation (s : FieldState) (et : Option EventType) (sk : Bool) :
    (validateE s et sk).settled.holdValidation = s.holdValidation := by
  unfold validateE
  cases hv : s.validation with
  | none => rfl
  | some cfg => by_cases h : holdForSure s.holdValidation et = true <;> simp [h]

@[simp]
theorem validateE_settled_holdListeners (s : FieldState) (et : Option EventType) (sk : Bool) :
    (validateE s et sk).settled.holdListeners = s.holdListeners := by
  unfold validateE
  cases hv : s.validation with
  | none => rfl
  | some cfg => by_cases h : holdForSure s.holdValidation et = true <;> simp [h]

@[simp]
theorem validateE_settled_parentOpts (s : FieldState) (et : Option EventType) (sk : Bool) :
    (validateE s et sk).settled.parentOpts = s.parentOpts := by
  unfold validateE
  cases hv : s.validation with
  | none => rfl
  | some cfg => by_cases h : holdForSure s.holdValidation et = true <;> simp [h]

/-- The two laws the override setters maintain: a pinned override always
agrees with its derived flag. -/
def OvInv (s : FieldState) : Prop :=
  (∀ b, s.errorOverride = some b → s.error = b) ∧
  (∀ b, s.warningOverride = some b → s.warning = b)

theorem updateMessages_ovinv (s : FieldState) (o : OnlyMode) (sk : Bool) (h : OvInv s) :
    OvInv (updateMessages s o sk).1 := by
  obtain ⟨he, hw⟩ := h
  constructor
  · intro b hb
    rw [updateMessages_fst_errorOverride] at hb
    rw [updateMessages_fst_error]
    cases o with
    | onlyWarning => exact he b hb
    | full => simp [hb]
    | onlyError => simp [hb]
  · intro b hb
    rw [updateMessages_fst_warningOverride] at hb
    rw [updateMessages_fst_warning]
    cases o with
    | onlyError => exact hw b hb
    | full => simp [hb]
    | onlyWarning => simp [hb]

theorem finishValidate_ovinv (s : FieldState) (sk : Bool) (aS aF : SlotAcc)
    (p r : Bool) (ex : List RuleId) (h : OvInv s) :
    OvInv (finishValidate s sk aS aF p r ex).settled := by
  unfold finishValidate
  cases p with
  | true =>
      by_cases hn : aS.needUpdate = true
      · simp only [hn, if_true]
        exact updateMessages_ovinv _ _ _ ⟨h.1, h.2⟩
      · simp only [hn, if_true, if_false]
        exact ⟨h.1, h.2⟩
  | false =>
      by_cases hn : aS.needUpdate = true
      · simp only [hn, Bool.false_eq_true, if_false, if_true]
        exact updateMessages_ovinv _ _ _ ⟨h.1, h.2⟩
      · simp only [hn, Bool.false_eq_true, if_false]
        exact ⟨h.1, h.2⟩

theorem validateE_ovinv (s : FieldState) (et : Option EventType) (sk : Bool) (h : OvInv s) :
    OvInv (validateE s et sk).settled := by
  unfold validateE
  cases hv : s.validation with
  | none => exact h
  | some cfg =>
      by_cases hh : holdForSure s.holdValidation et = true
      · simp only [hh, if_true]
        exact h
      · simp only [hh, if_false]
        exact finishValidate_ovinv _ _ _ _ _ _ _ ⟨h.1, h.2⟩

theorem step_ovinv (s : FieldState) (op : Op) (h : OvInv s) : OvInv (step s op).1 := by
  cases op with
  | setValue v => exact validateE_ovinv _ _ _ ⟨h.1, h.2⟩
  | touch v => exact validateE_ovinv _ _ _ ⟨h.1, h.2⟩
  | setTouched n => exact ⟨h.1, h.2⟩
  | setChanged n => exact ⟨h.1, h.2⟩
  | setErrorOverride o =>
      show OvInv (opSetErrorOverride s o).1
      unfold opSetErrorOverride
      split
      · exact h
      · cases o with
        | none =>
            exact updateMessages_ovinv _ _ _ ⟨fun b hb => by simp at hb, h.2⟩
        | some b =>
            refine ⟨fun b' hb' => ?_, h.2⟩
            simp at hb' ⊢
            exact hb'
  | setWarningOverride o =>
      show OvInv (opSetWarningOverride s o).1
      unfold opSetWarningOverride
      split
      · exact h
      · cases o with
        | none =>
            exact updateMessages_ovinv _ _ _ ⟨h.1, fun b hb => by simp at hb⟩
        | some b =>
            refine ⟨h.1, fun b' hb' => ?_⟩
            simp at hb' ⊢
            exact hb'
  | setCustomMessages m => exact updateMessages_ovinv _ _ _ ⟨h.1, h.2⟩
  | clearValidated =>
      show OvInv (opClearValidated s).1
      unfold opClearValidated
      split
      · exact h
      · exact updateMessages_ovinv _ _ _ ⟨h.1, h.2⟩
  | clear =>
      exact updateMessages_ovinv _ _ _
        ⟨fun b hb => by simp at hb, fun b hb => by simp at hb⟩
  | reset =>
      show OvInv (opClear { s with value := s.defaultValue, touched := 0, changed := 0 }).1
      exact updateMessages_ovinv _ _ _
        ⟨fun b hb => by simp at hb, fun b hb => by simp at hb⟩
  | setRequired r =>
      show OvInv (opSetRequired s r).1
      unfold opSetRequired
      split
      · exact h
      · dsimp only
        split
        · exact h
        · split
          · exact updateMessages_ovinv _ _ _ ⟨h.1, h.2⟩
          · exact ⟨h.1, h.2⟩
  | setValidation v =>
      show OvInv (opClearValidated { s with validation := v }).1
      unfold opClearValidated
      split
      · exact ⟨h.1, h.2⟩
      · exact updateMessages_ovinv _ _ _ ⟨h.1, h.2⟩
  | validate et => exact validateE_ovinv _ _ _ h
  | setHoldValidation hv => exact ⟨h.1, h.2⟩
  | setHoldListeners hl => exact ⟨h.1, h.2⟩
  | setDefaultValue v => exact ⟨h.1, h.2⟩
  | setParentOpts po => exact ⟨h.1, h.2⟩

theorem reachable_ovinv (s : FieldState) (h : Reachable s) : OvInv s := by
  induction h with
  | init po dv =>
      exact ⟨fun b hb => Option.noConfusion hb, fun b hb => Option.noConfusion hb⟩
  | step s' op hr ih => exact step_ovinv s' op ih

theorem mem_emitIfChanged (h : HoldL) (p : Param) (c : Bool) (q : Param)
    (hq : q ∈ emitIfChanged h p c) : q = p := by
  unfold emitIfChanged at hq
  split at hq
  · simpa using hq
  · simp at hq

/-- C6: assigning a boolean to `errorOverride` (resp. `warningOverride`) pins
exactly that flag, leaves the message list, the other flag and all message
sources untouched, and notifies at most that flag's listeners; assigning
`null` to a set override re-derives only that flag from the current message
sources, leaving the other flag and the message list untouched. -/
theorem override_setter_frame (s : FieldState) (hs : Reachable s) :
    (∀ b : Bool,
      (opSetErrorOverride s (some b)).1.error = b ∧
      (opSetErrorOverride s (some b)).1.errorOverride = some b ∧
      (opSetErrorOverride s (some b)).1.messages = s.messages ∧
      (opSetErrorOverride s (some b)).1.warning = s.warning ∧
      (opSetErrorOverride s (some b)).1.warningOverride = s.warningOverride ∧
      (opSetErrorOverride s (some b)).1.requiredMessage = s.requiredMessage ∧
      (opSetErrorOverride s (some b)).1.rulesMessages = s.rulesMessages ∧
      (opSetErrorOverride s (some b)).1.customMessages = s.customMessages ∧
      (∀ p ∈ (opSetErrorOverride s (some b)).2, p = Param.error)) ∧
    (s.errorOverride ≠ none →
      (opSetErrorOverride s none).1.error = anyOfType (composeSources s) .error ∧
      (opSetErrorOverride s none).1.messages = s.messages ∧
      (opSetErrorOverride s none).1.warning = s.warning ∧
      (opSetErrorOverride s none).1.warningOverride = s.warningOverride) ∧
    (∀ b : Bool,
      (opSetWarningOverride s (some b)).1.warning = b ∧
      (opSetWarningOverride s (some b)).1.warningOverride = some b ∧
      (opSetWarningOverride s (some b)).1.messages = s.messages ∧
      (opSetWarningOverride s (some b)).1.error = s.error ∧
      (opSetWarningOverride s (some b)).1.errorOverride = s.errorOverride ∧
      (opSetWarningOverride s (some b)).1.requiredMessage = s.requiredMessage ∧
      (opSetWarningOverride s (some b)).1.rulesMessages = s.rulesMessages ∧
      (opSetWarningOverride s (some b)).1.customMessages = s.customMessages ∧
      (∀ p ∈ (opSetWarningOverride s (some b)).2, p = Param.warning)) ∧
    (s.warningOverride ≠ none →
      (opSetWarningOverride s none).1.warning = anyOfType (composeSources s) .warning ∧
      (opSetWarningOverride s none).1.messages = s.messages ∧
      (opSetWarningOverride s none).1.error = s.error ∧
      (opSetWarningOverride s none).1.errorOverride = s.errorOverride) := by
  have hov := reachable_ovinv s hs
  refine ⟨?_, ?_, ?_, ?_⟩
  · intro b
    unfold opSetErrorOverride
    split
    · next heq =>
        exact ⟨hov.1 b heq, heq, rfl, rfl, rfl, rfl, rfl, rfl, fun p hp => by simp at hp⟩
    · exact ⟨rfl, rfl, rfl, rfl, rfl, rfl, rfl, rfl,
        fun p hp => mem_emitIfChanged _ _ _ p hp⟩
  · intro hne
    unfold opSetErrorOverride
    split
    · next heq => exact absurd heq hne
    · exact ⟨rfl, rfl, rfl, rfl⟩
  · intro b
    unfold opSetWarningOverride
    split
    · next heq =>
        exact ⟨hov.2 b heq, heq, rfl, rfl, rfl, rfl, rfl, rfl, fun p hp => by simp at hp⟩
    · exact ⟨rfl, rfl, rfl, rfl, rfl, rfl, rfl, rfl,
        fun p hp => mem_emitIfChanged _ _ _ p hp⟩
  · intro hne
    unfold opSetWarningOverride
    split
    · next heq => exact absurd heq hne
    · exact ⟨rfl, rfl, rfl, rfl⟩

theorem override_setter_frame_witness :
    (opSetErrorOverride (initState none JSValue.undef) (some true)).1.error = true ∧
    (opSetErrorOverride (initState none JSValue.undef) (some true)).1.messages = none :=
  ⟨((override_setter_frame _ (Reachable.init none JSValue.undef)).1 true).1,
   ((override_setter_frame _ (Reachable.init none JSValue.undef)).1 true).2.2.1⟩

/-- C7: every `value =` assignment stores the assigned value, increments
`changed` by exactly one and leaves `touched` unchanged (also when the
assigned value is identical to the current one). -/
theorem value_assignment_increments_changed (s : FieldState) (v : JSValue) :
    (opSetValue s v).1.value = v ∧
    (opSetValue s v).1.changed = s.changed + 1 ∧
    (opSetValue s v).1.touched = s.touched := by
  unfold opSetValue
  refine ⟨?_, ?_, ?_⟩ <;> simp

/-- C9: when both validation message sources are already null,
`clearValidated()` returns without recomputing, notifying or changing
anything. -/
theorem clearValidated_noop_when_sources_absent (s : FieldState)
    (h1 : s.requiredMessage = none) (h2 : s.rulesMessages = none) :
    opClearValidated s = (s, []) := by
  unfold opClearValidated
  simp [h1, h2]

theorem clearValidated_noop_witness :
    opClearValidated (initState none (JSValue.num 2)) = (initState none (JSValue.num 2), []) :=
  clearValidated_noop_when_sources_absent _ rfl rfl

theorem opSetErrorOverride_noop (s : FieldState) (o : Option Bool)
    (h : s.errorOverride = o) : opSetErrorOverride s o = (s, []) := by
  unfold opSetErrorOverride
  simp [h]

theorem opSetWarningOverride_noop (s : FieldState) (o : Option Bool)
    (h : s.warningOverride = o) : opSetWarningOverride s o = (s, []) := by
  unfold opSetWarningOverride
  simp [h]

theorem opSetErrorOverride_fst_errorOverride (s : FieldState) (o : Option Bool) :
    (opSetErrorOverride s o).1.errorOverride = o := by
  unfold opSetErrorOverride
  split
  · next heq => exact heq
  · cases o with
    | none => simp
    | some b => rfl

theorem opSetWarningOverride_fst_warningOverride (s : FieldState) (o : Option Bool) :
    (opSetWarningOverride s o).1.warningOverride = o := by
  unfold opSetWarningOverride
  split
  · next heq => exact heq
  · cases o with
    | none => simp
    | some b => rfl

/-- C10: assigning to `errorOverride` (resp. `warningOverride`) the value it
already holds is a complete no-op (no state change, no notification), and
hence assigning the same override twice in a row equals assigning it once. -/
theorem override_setter_idempotent (s : FieldState) (o : Option Bool) :
    (s.errorOverride = o → opSetErrorOverride s o = (s, [])) ∧
    opSetErrorOverride (opSetErrorOverride s o).1 o = ((opSetErrorOverride s o).1, []) ∧
    (s.warningOverride = o → opSetWarningOverride s o = (s, [])) ∧
    opSetWarningOverride (opSetWarningOverride s o).1 o = ((opSetWarningOverride s o).1, []) :=
  ⟨fun h => opSetErrorOverride_noop s o h,
   opSetErrorOverride_noop _ o (opSetErrorOverride_fst_errorOverride s o),
   fun h => opSetWarningOverride_noop s o h,
   opSetWarningOverride_noop _ o (opSetWarningOverride_fst_warningOverride s o)⟩

theorem override_setter_idempotent_witness :
    opSetErrorOverride (initState none JSValue.undef) none =
      (initState none JSValue.undef, []) :=
  (override_setter_idempotent (initState none JSValue.undef) none).1 rfl

/-- C3 counterexample: on a fresh field the direct `touched =` setter raises
`touched` above `changed`, so the invariant is not preserved by the counter
setters. -/
theorem touched_setter_breaks_invariant :
    (step (initState none JSValue.undef) (.setTouched 1)).1.touched = 1 ∧
    (step (initState none JSValue.undef) (.setTouched 1)).1.changed = 0 ∧
    ¬((step (initState none JSValue.undef) (.setTouched 1)).1.touched ≤
      (step (initState none JSValue.undef) (.setTouched 1)).1.changed) := by
  refine ⟨rfl, rfl, ?_⟩
  decide

/-- The operations the amended counter invariant excludes: the direct
`touched =` and `changed =` setters. -/
def isCounterSetter : Op → Bool
  | .setTouched _ => true
  | .setChanged _ => true
  | _ => false

/-- States reachable from construction without ever using the direct counter
setters. -/
inductive ReachableNC : FieldState → Prop where
  | init (po : Option ParentOpts) (dv : JSValue) : ReachableNC (initState po dv)
  | step (s : FieldState) (op : Op) (hop : isCounterSetter op = false) :
      ReachableNC s → ReachableNC (step s op).1

/-- C3 amended: `changed >= touched` holds after every operation of any
sequence from construction that never assigns the counters directly; value
assignment, touch and all other public operations preserve it, while the
direct `touched =`/`changed =` setters can violate it. -/
theorem changed_ge_touched_without_counter_setters (s : FieldState) (h : ReachableNC s) :
    s.touched ≤ s.changed := by
  induction h with
  | init po dv => exact Nat.le_refl 0
  | step s' op hop hr ih =>
      cases op with
      | setValue v =>
          show (opSetValue s' v).1.touched ≤ (opSetValue s' v).1.changed
          unfold opSetValue
          simp only [validateE_settled_touched, validateE_settled_changed]
          exact Nat.le_succ_of_le ih
      | touch v =>
          show (opTouch s' v).1.touched ≤ (opTouch s' v).1.changed
          unfold opTouch
          simp only [validateE_settled_touched, validateE_settled_changed]
          exact Nat.succ_le_succ ih
      | setTouched n => simp [isCounterSetter] at hop
      | setChanged n => simp [isCounterSetter] at hop
      | setErrorOverride o =>
          show (opSetErrorOverride s' o).1.touched ≤ (opSetErrorOverride s' o).1.changed
          unfold opSetErrorOverride
          split
          · exact ih
          · cases o with
            | none => simpa using ih
            | some b => exact ih
      | setWarningOverride o =>
          show (opSetWarningOverride s' o).1.touched ≤ (opSetWarningOverride s' o).1.changed
          unfold opSetWarningOverride
          split
          · exact ih
          · cases o with
            | none => simpa using ih
            | some b => exact ih
      | setCustomMessages m =>
          show (opSetCustomMessages s' m).1.touched ≤ (opSetCustomMessages s' m).1.changed
          unfold opSetCustomMessages
          simpa using ih
      | clearValidated =>
          show (opClearValidated s').1.touched ≤ (opClearValidated s').1.changed
          unfold opClearValidated
          split
          · exact ih
          · simpa using ih
      | clear =>
          show (opClear s').1.touched ≤ (opClear s').1.changed
          unfold opClear
          simpa using ih
      | reset =>
          show (opReset s').1.touched ≤ (opReset s').1.changed
          unfold opReset opClear
          simp
      | setRequired r =>
          show (opSetRequired s' r).1.touched ≤ (opSetRequired s' r).1.changed
          unfold opSetRequired
          split
          · exact ih
          · dsimp only
            split
            · exact ih
            · split
              · simpa using ih
              · exact ih
      | setValidation v =>
          show (opClearValidated { s' with validation := v }).1.touched ≤
            (opClearValidated { s' with validation := v }).1.changed
          unfold opClearValidated
          split
          · exact ih
          · simpa using ih
      | validate et =>
          show (opValidate s' et).1.touched ≤ (opValidate s' et).1.changed
          unfold opValidate
          simpa using ih
      | setHoldValidation hv => exact ih
      | setHoldListeners hl => exact ih
      | setDefaultValue v => exact ih
      | setParentOpts po => exact ih

theorem changed_ge_touched_witness :
    (initState none (JSValue.num 2)).touched ≤ (initState none (JSValue.num 2)).changed :=
  changed_ge_touched_without_counter_setters _ (ReachableNC.init none (JSValue.num 2))

/-- A configured rule whose check is asynchronous and resolves to `false`. -/
def asyncFalseRule : Rule :=
  { message := some "E", type := none,
    validate := some (fun _ => CheckBehavior.asyncRet false),
    typeIfPassed := none, validateOn := none }

/-- A validation config with that one rule and nothing else. -/
def asyncRuleConfig : Validation :=
  { rules := some [some asyncFalseRule], required := none, validateOn := none,
    requiredValidate := none, requiredMessage := none }

/-- Fresh field with the async rule configured. -/
def asyncBugPre : FieldState :=
  (step (initState none (JSValue.num 2)) (.setValidation (some asyncRuleConfig))).1

/-- That field after `validate()` has settled. -/
def asyncBugState : FieldState := (step asyncBugPre (.validate none)).1

/-- C2 (code bug evaluation): after `validate()` with a single asynchronous
rule that resolves `false`, the rule-message source holds the failure message
and the checks' conjunction is `false`, yet `messages` stays null and `error`
stays false — `_validate` reads `needUpdate` synchronously when choosing
`processBools`, before the deferred `processPassed` callbacks run, so a slot
change made only by deferred checks never triggers the recompute the spec
describes. -/
theorem messages_compose_async_code_bug :
    asyncBugState.rulesMessages =
      some [some { message := some "E", type := some .error }] ∧
    composeSources asyncBugState = [{ message := some "E", type := some .error }] ∧
    asyncBugState.messages = none ∧
    asyncBugState.error = false ∧
    (validateE asyncBugPre none false).result = false :=
  ⟨rfl, rfl, rfl, rfl, rfl⟩

/-- Fresh field with `errorOverride = false`, the async rule configured and
`validate()` settled (message sources now out of sync with `messages`). -/
def overrideBugPre : FieldState :=
  (step (step (step (initState none (JSValue.num 2))
    (.setErrorOverride (some false))).1 (.setValidation (some asyncRuleConfig))).1
    (.validate none)).1

/-- That field after clearing the override. -/
def overrideBugState : FieldState := (step overrideBugPre (.setErrorOverride none)).1

/-- C1 (code bug evaluation): downstream of the skipped async recompute,
clearing `errorOverride` re-derives `error` from the message sources and
leaves `error = true` while the composed `messages` list is still null — with
the override unset, `error` no longer agrees with "some message in the
composed message list has kind error". -/
theorem errorOverride_law_async_code_bug :
    overrideBugState.errorOverride = none ∧
    overrideBugState.error = true ∧
    overrideBugState.messages = none ∧
    anyOfType (overrideBugState.messages.getD []) .error = false :=
  ⟨rfl, rfl, rfl, rfl⟩

/-- Read the slot a `RuleId` addresses. -/
def slotProj (t : RuleId) (acc : SlotAcc) : Option FieldMessage :=
  match t with
  | .required => acc.req
  | .idx i => slotAt acc.rl i

theorem shallowEqualMsg_eq (old : Option FieldMessage) (m : FieldMessage)
    (h : shallowEqualMsg old m = true) : old = some m := by
  unfold shallowEqualMsg at h
  cases old with
  | some m' =>
      simp only [decide_eq_true_eq] at h
      rw [h]
  | none => simp at h

theorem slotAt_setSlot_self (l : List (Option FieldMessage)) (i : Nat) (m : FieldMessage) :
    slotAt (setSlot l i m) i = some m := by
  unfold slotAt setSlot
  split
  · next h =>
      rw [List.getD_eq_getElem?_getD, List.getElem?_set_self', List.getElem?_eq_getElem h]
      rfl
  · next h =>
      have hlen : (l ++ List.replicate (i - l.length) (none : Option FieldMessage)).length = i := by
        simp only [List.length_append, List.length_replicate]
        omega
      rw [List.getD_eq_getElem?_getD, List.getElem?_append_right hlen.le, hlen]
      simp

theorem slotAt_setSlot_ne (l : List (Option FieldMessage)) (i j : Nat) (m : FieldMessage)
    (hne : j ≠ i) : slotAt (setSlot l i m) j = slotAt l j := by
  unfold slotAt setSlot
  split
  · next h =>
      rw [List.getD_eq_getElem?_getD, List.getD_eq_getElem?_getD,
        List.getElem?_set_ne (Ne.symm hne)]
  · next h =>
      rw [List.getD_eq_getElem?_getD, List.getD_eq_getElem?_getD]
      by_cases hj : j < l.length
      · have h1 : j < (l ++ List.replicate (i - l.length) (none : Option FieldMessage)).length := by
          rw [List.length_append, List.length_replicate]
          omega
        rw [List.getElem?_append_left h1, List.getElem?_append_left hj]
      · have hln : l[j]? = (none : Option (Option FieldMessage)) :=
          List.getElem?_eq_none (by omega)
        by_cases hji : j < i
        · have h1 : j < (l ++ List.replicate (i - l.length) (none : Option FieldMessage)).length := by
            rw [List.length_append, List.length_replicate]
            omega
          rw [List.getElem?_append_left h1]
          have h2 : l.length ≤ j := by omega
          rw [List.getElem?_append_right h2, List.getElem?_replicate, hln]
          have h3 : j - l.length < i - l.length := by omega
          rw [if_pos h3]
          rfl
        · have h1 : ((l ++ List.replicate (i - l.length) (none : Option FieldMessage)) ++
              [some m]).length ≤ j := by
            rw [List.length_append, List.length_append, List.length_replicate]
            simp only [List.length_cons, List.length_nil]
            omega
          rw [List.getElem?_eq_none h1, hln]

theorem slotAt_delSlot_self (l : List (Option FieldMessage)) (i : Nat) :
    slotAt (delSlot l i) i = none := by
  unfold slotAt delSlot
  rw [List.getD_eq_getElem?_getD, List.getElem?_set_self']
  cases l[i]? <;> rfl

theorem slotAt_delSlot_ne (l : List (Option FieldMessage)) (i j : Nat) (hne : j ≠ i) :
    slotAt (delSlot l i) j = slotAt l j := by
  unfold slotAt delSlot
  rw [List.getD_eq_getElem?_getD, List.getD_eq_getElem?_getD,
    List.getElem?_set_ne (Ne.symm hne)]

theorem slotProj_applySlot_self (acc : SlotAcc) (t : RuleId) (d : Option FieldMessage) :
    slotProj t (applySlot acc t d) = d := by
  cases t with
  | required =>
      cases d with
      | some m =>
          simp only [applySlot]
          split
          · next h => exact shallowEqualMsg_eq acc.req m h
          · rfl
      | none =>
          simp only [applySlot]
          split
          · rfl
          · next h =>
              show acc.req = none
              exact Option.not_isSome_iff_eq_none.mp (by simpa using h)
  | idx i =>
      cases d with
      | some m =>
          simp only [applySlot]
          split
          · next h => exact shallowEqualMsg_eq (slotAt acc.rl i) m h
          · exact slotAt_setSlot_self acc.rl i m
      | none =>
          simp only [applySlot]
          split
          · exact slotAt_delSlot_self acc.rl i
          · next h =>
              show slotAt acc.rl i = none
              exact Option.not_isSome_iff_eq_none.mp (by simpa using h)

theorem slotProj_applySlot_ne (acc : SlotAcc) (t t' : RuleId) (d : Option FieldMessage)
    (hne : t' ≠ t) : slotProj t' (applySlot acc t d) = slotProj t' acc := by
  cases t with
  | required =>
      cases t' with
      | required => exact absurd rfl hne
      | idx j =>
          cases d with
          | some m => simp only [applySlot]; split <;> rfl
          | none => simp only [applySlot]; split <;> rfl
  | idx i =>
      cases t' with
      | required =>
          cases d with
          | some m => simp only [applySlot]; split <;> rfl
          | none => simp only [applySlot]; split <;> rfl
      | idx j =>
          have hij : j ≠ i := fun hc => hne (by rw [hc])
          cases d with
          | some m =>
              simp only [applySlot]
              split
              · rfl
              · exact slotAt_setSlot_ne acc.rl i j m hij
          | none =>
              simp only [applySlot]
              split
              · exact slotAt_delSlot_ne acc.rl i j hij
              · rfl

theorem slotProj_applyRuns_of_not_mem (t : RuleId) (rs : List ItemRun) (acc : SlotAcc)
    (h : ∀ r ∈ rs, r.id ≠ t) : slotProj t (applyRuns acc rs) = slotProj t acc := by
  induction rs generalizing acc with
  | nil => rfl
  | cons a tl ih =>
      show slotProj t (applyRuns (applyRun acc a) tl) = slotProj t acc
      rw [ih _ (fun r hr => h r (List.mem_cons_of_mem a hr))]
      exact slotProj_applySlot_ne acc a.id t a.desired (Ne.symm (h a (List.mem_cons_self a tl)))

theorem slotProj_applyRuns_last (t : RuleId) (xs ys : List ItemRun) (q : ItemRun)
    (acc : SlotAcc) (hq : q.id = t) (hys : ∀ r ∈ ys, r.id ≠ t) :
    slotProj t (applyRuns acc (xs ++ q :: ys)) = q.desired := by
  unfold applyRuns
  rw [List.foldl_append]
  show slotProj t (applyRuns (applyRun (applyRuns acc xs) q) ys) = q.desired
  rw [slotProj_applyRuns_of_not_mem t ys _ hys]
  show slotProj t (applySlot (applyRuns acc xs) q.id q.desired) = q.desired
  rw [hq]
  exact slotProj_applySlot_self _ _ _

theorem countP_bool_split (l : List α) (p q : α → Bool) :
    l.countP (fun a => p a && q a) + l.countP (fun a => p a && !q a) = l.countP p := by
  induction l with
  | nil => rfl
  | cons a tl ih =>
      by_cases hp : p a = true <;> by_cases hq2 : q a = true <;>
        simp [List.countP_cons, hp, hq2, ← ih] <;> omega

theorem everyTruthy_false (l : List Bool) (h : false ∈ l) : everyTruthy l = false := by
  unfold everyTruthy
  cases hall : l.all id with
  | false => rfl
  | true => exact absurd (List.all_eq_true.mp hall false h) (by simp)

theorem mem_rulesItems (l : List (Option Rule)) (i0 : Nat) (p : RuleId × Rule)
    (hp : p ∈ rulesItems l i0) :
    ∃ k r, p = (RuleId.idx (i0 + k), r) ∧ l.get? k = some (some r) := by
  induction l generalizing i0 with
  | nil => simp [rulesItems] at hp
  | cons hd tl ih =>
      cases hd with
      | none =>
          obtain ⟨k, r, hpe, hk⟩ := ih (i0 + 1) (by simpa [rulesItems] using hp)
          refine ⟨k + 1, r, ?_, by simpa using hk⟩
          rw [hpe, show i0 + 1 + k = i0 + (k + 1) from by omega]
      | some r0 =>
          rw [rulesItems] at hp
          rcases List.mem_cons.mp hp with he | htl
          · exact ⟨0, r0, by rw [he, Nat.add_zero], by simp⟩
          · obtain ⟨k, r, hpe, hk⟩ := ih (i0 + 1) htl
            refine ⟨k + 1, r, ?_, by simpa using hk⟩
            rw [hpe, show i0 + 1 + k = i0 + (k + 1) from by omega]

theorem rulesItems_mem_of_get (l : List (Option Rule)) (i0 k : Nat) (r : Rule)
    (hk : l.get? k = some (some r)) : (RuleId.idx (i0 + k), r) ∈ rulesItems l i0 := by
  induction l generalizing i0 k with
  | nil => simp at hk
  | cons hd tl ih =>
      cases k with
      | zero =>
          cases hd with
          | none => simp at hk
          | some r0 =>
              have hr : r0 = r := by simpa using hk
              rw [rulesItems, hr]
              exact List.mem_cons_self _ _
      | succ k' =>
          cases hd with
          | none =>
              have hmem := ih (i0 + 1) k' (by simpa using hk)
              rw [rulesItems]
              rw [show i0 + (k' + 1) = i0 + 1 + k' from by omega]
              exact hmem
          | some r0 =>
              have hmem := ih (i0 + 1) k' (by simpa using hk)
              rw [rulesItems]
              refine List.mem_cons_of_mem _ ?_
              rw [show i0 + (k' + 1) = i0 + 1 + k' from by omega]
              exact hmem

theorem rulesItems_countP_le_one (l : List (Option Rule)) (i0 j : Nat) :
    (rulesItems l i0).countP (fun p => decide (p.1 = RuleId.idx j)) ≤ 1 := by
  induction l generalizing i0 with
  | nil => simp [rulesItems]
  | cons hd tl ih =>
      cases hd with
      | none =>
          rw [rulesItems]
          exact ih (i0 + 1)
      | some r0 =>
          rw [rulesItems, List.countP_cons]
          by_cases hj : i0 = j
          · subst hj
            have h0 : (rulesItems tl (i0 + 1)).countP
                (fun p => decide (p.1 = RuleId.idx i0)) = 0 := by
              rw [List.countP_eq_zero]
              intro p hp
              obtain ⟨k, r, hpe, _⟩ := mem_rulesItems tl (i0 + 1) p hp
              rw [hpe]
              simp only [decide_eq_true_eq, RuleId.idx.injEq]
              omega
            simp [h0]
          · have hhd : decide ((RuleId.idx i0, r0).1 = RuleId.idx j) = false := by
              simp only [decide_eq_false_iff_not, RuleId.idx.injEq]
              exact hj
            rw [hhd]
            simpa using ih (i0 + 1)

theorem rulesItems_countP_required (l : List (Option Rule)) (i0 : Nat) :
    (rulesItems l i0).countP (fun p => decide (p.1 = RuleId.required)) = 0 := by
  rw [List.countP_eq_zero]
  intro p hp
  obtain ⟨k, r, hpe, _⟩ := mem_rulesItems l i0 p hp
  rw [hpe]
  simp

theorem requiredItems_countP_idx (s : FieldState) (cfg : Validation) (i : Nat) :
    (requiredItems s cfg).countP (fun p => decide (p.1 = RuleId.idx i)) = 0 := by
  unfold requiredItems
  cases cfg.required with
  | none => rfl
  | some r => by_cases hr : requiredTruthy r = true <;> simp [hr]

theorem workList_countP_idx (s : FieldState) (cfg : Validation) (i : Nat) :
    (workList s cfg).countP (fun p => decide (p.1 = RuleId.idx i)) ≤ 1 := by
  unfold workList
  rw [List.countP_append, requiredItems_countP_idx]
  simpa using rulesItems_countP_le_one (cfg.rules.getD []) 0 i

theorem workList_countP_required (s : FieldState) (cfg : Validation) :
    (workList s cfg).countP (fun p => decide (p.1 = RuleId.required)) ≤ 1 := by
  unfold workList
  rw [List.countP_append, rulesItems_countP_required]
  unfold requiredItems
  cases cfg.required with
  | none => simp
  | some r => by_cases hr : requiredTruthy r = true <;> simp [hr]

theorem countP_filter_partition (rs : List ItemRun) (p : ItemRun → Bool) :
    (rs.filter (fun r => !r.isAsync)).countP p + (rs.filter (fun r => r.isAsync)).countP p =
      rs.countP p := by
  induction rs with
  | nil => rfl
  | cons a tl ih =>
      by_cases hq2 : a.isAsync = true <;> by_cases hp : p a = true <;>
        simp [List.countP_cons, List.filter_cons, hp, hq2, ← ih] <;> omega

theorem slotProj_mk_eta (t : RuleId) (acc : SlotAcc) (b : Bool) :
    slotProj t { req := acc.req, rl := acc.rl, needUpdate := b } = slotProj t acc := by
  cases t <;> rfl

/-- The slot accumulator `_validate` starts from: the current required message
and `this._rulesMessages = this._rulesMessages || []`. -/
def initAcc (s : FieldState) : SlotAcc :=
  { req := s.requiredMessage, rl := s.rulesMessages.getD [], needUpdate := false }

/-- The synchronously settled checks of one call, in work-list order. -/
def syncRuns (s : FieldState) (cfg : Validation) (et : Option EventType) : List ItemRun :=
  (runs s cfg et).filter (fun r => !r.isAsync)

/-- The asynchronously settled checks of one call, in work-list order. -/
def asyncRuns (s : FieldState) (cfg : Validation) (et : Option EventType) : List ItemRun :=
  (runs s cfg et).filter (fun r => r.isAsync)

/-- The slot state after every check of the call has settled. -/
def finalAcc (s : FieldState) (cfg : Validation) (et : Option EventType) : SlotAcc :=
  applyRuns (applyRuns (initAcc s) (syncRuns s cfg et)) (asyncRuns s cfg et)

theorem applyRuns_split_proj (t : RuleId) (rs : List ItemRun) (acc0 : SlotAcc) (q : ItemRun)
    (hq : q ∈ rs) (hid : q.id = t)
    (hcount : rs.countP (fun r => decide (r.id = t)) ≤ 1) :
    slotProj t (applyRuns (applyRuns acc0 (rs.filter (fun r => !r.isAsync)))
      (rs.filter (fun r => r.isAsync))) = q.desired := by
  have hcomb : applyRuns (applyRuns acc0 (rs.filter (fun r => !r.isAsync)))
      (rs.filter (fun r => r.isAsync)) =
      applyRuns acc0 (rs.filter (fun r => !r.isAsync) ++ rs.filter (fun r => r.isAsync)) := by
    unfold applyRuns
    rw [List.foldl_append]
  rw [hcomb]
  have hqmem : q ∈ rs.filter (fun r => !r.isAsync) ++ rs.filter (fun r => r.isAsync) := by
    rw [List.mem_append]
    by_cases ha : q.isAsync = true
    · exact Or.inr (List.mem_filter.mpr ⟨hq, by simp [ha]⟩)
    · exact Or.inl (List.mem_filter.mpr ⟨hq, by simp [ha]⟩)
  have hcnt : (rs.filter (fun r => !r.isAsync) ++ rs.filter (fun r => r.isAsync)).countP
      (fun r => decide (r.id = t)) ≤ 1 := by
    rw [List.countP_append, countP_filter_partition]
    exact hcount
  obtain ⟨xs, ys, hxy⟩ := List.append_of_mem hqmem
  rw [hxy] at hcnt ⊢
  have hys : ∀ r ∈ ys, r.id ≠ t := by
    intro r hr he
    rw [List.countP_append, List.countP_cons] at hcnt
    have h1 : decide (q.id = t) = true := by simp [hid]
    rw [h1, if_pos rfl] at hcnt
    have h2 : 0 < ys.countP (fun r => decide (r.id = t)) :=
      List.countP_pos_iff.mpr ⟨r, hr, by simp [he]⟩
    omega
  exact slotProj_applyRuns_last t xs ys q acc0 hid hys

theorem validateE_eq_of_some (s : FieldState) (cfg : Validation) (et : Option EventType)
    (sk : Bool) (hv : s.validation = some cfg)
    (hh : holdForSure s.holdValidation et = false) :
    validateE s et sk =
      finishValidate s sk (applyRuns (initAcc s) (syncRuns s cfg et)) (finalAcc s cfg et)
        (!(asyncRuns s cfg et).isEmpty)
        (everyTruthy ((runs s cfg et).map (fun r => r.passed)))
        ((runs s cfg et).map (fun r => r.id)) := by
  unfold validateE
  rw [hv]
  simp only [hh, Bool.false_eq_true, if_false]
  rfl

theorem validateE_executed_eq (s : FieldState) (cfg : Validation) (et : Option EventType)
    (sk : Bool) (hv : s.validation = some cfg)
    (hh : holdForSure s.holdValidation et = false) :
    (validateE s et sk).executed = (runs s cfg et).map (fun r => r.id) := by
  rw [validateE_eq_of_some s cfg et sk hv hh, finishValidate_executed]

theorem validateE_result_eq (s : FieldState) (cfg : Validation) (et : Option EventType)
    (sk : Bool) (hv : s.validation = some cfg)
    (hh : holdForSure s.holdValidation et = false) :
    (validateE s et sk).result = everyTruthy ((runs s cfg et).map (fun r => r.passed)) := by
  rw [validateE_eq_of_some s cfg et sk hv hh, finishValidate_result]

theorem validateE_sources_eq (s : FieldState) (cfg : Validation) (et : Option EventType)
    (sk : Bool) (hv : s.validation = some cfg)
    (hh : holdForSure s.holdValidation et = false) :
    (validateE s et sk).settled.requiredMessage = (finalAcc s cfg et).req ∧
    (validateE s et sk).settled.rulesMessages = some (finalAcc s cfg et).rl := by
  rw [validateE_eq_of_some s cfg et sk hv hh]
  exact ⟨finishValidate_settled_requiredMessage _ _ _ _ _ _ _,
    finishValidate_settled_rulesMessages _ _ _ _ _ _ _⟩

theorem validateE_run_facts (s : FieldState) (cfg : Validation) (et : Option EventType)
    (sk : Bool) (hv : s.validation = some cfg)
    (hh : holdForSure s.holdValidation et = false)
    (t : RuleId) (ru : Rule) (hmem : (t, ru) ∈ workList s cfg)
    (huniq : (workList s cfg).countP (fun p => decide (p.1 = t)) ≤ 1)
    (hsh : shouldValidate s.holdValidation et (resolveOn s cfg ru) = true) :
    slotProj t (initAcc (validateE s et sk).settled) =
      processPassed ru (itemSettled ru s.value).2 ∧
    ((itemSettled ru s.value).2 = false → (validateE s et sk).result = false) ∧
    t ∈ (validateE s et sk).executed := by
  have hqe : (t, ru) ∈ executedItems s cfg et := List.mem_filter.mpr ⟨hmem, hsh⟩
  have hqrs : itemRun s.value (t, ru) ∈ runs s cfg et :=
    List.mem_map.mpr ⟨(t, ru), hqe, rfl⟩
  have hid : (itemRun s.value (t, ru)).id = t := rfl
  have hcnt : (runs s cfg et).countP (fun r => decide (r.id = t)) ≤ 1 := by
    unfold runs
    rw [List.countP_map]
    rw [List.countP_congr (fun a _ => Iff.rfl :
      ∀ a ∈ executedItems s cfg et,
        (((fun r => decide (r.id = t)) ∘ itemRun s.value) a = true ↔
          decide (a.1 = t) = true))]
    calc (executedItems s cfg et).countP (fun p => decide (p.1 = t))
        ≤ (workList s cfg).countP (fun p => decide (p.1 = t)) :=
          List.Sublist.countP_le _ (List.filter_sublist _)
      _ ≤ 1 := huniq
  refine ⟨?_, ?_, ?_⟩
  · obtain ⟨hr1, hr2⟩ := validateE_sources_eq s cfg et sk hv hh
    have hacc : initAcc (validateE s et sk).settled =
        { req := (finalAcc s cfg et).req, rl := (finalAcc s cfg et).rl,
          needUpdate := false } := by
      unfold initAcc
      rw [hr1, hr2]
      rfl
    rw [hacc, slotProj_mk_eta]
    exact applyRuns_split_proj t (runs s cfg et) (initAcc s)
      (itemRun s.value (t, ru)) hqrs hid hcnt
  · intro hpf
    rw [validateE_result_eq s cfg et sk hv hh]
    apply everyTruthy_false
    refine List.mem_map.mpr ⟨itemRun s.value (t, ru), hqrs, ?_⟩
    show (itemRun s.value (t, ru)).passed = false
    exact hpf
  · rw [validateE_executed_eq s cfg et sk hv hh]
    exact List.mem_map.mpr ⟨itemRun s.value (t, ru), hqrs, hid⟩

/-- C4: a check that throws synchronously or returns a rejecting promise is
treated exactly as a failed check (spec-modelled `everyTruthy`): provided the
check runs, the call's settled result is `false` and the rule's failure
message `{message: rule.message, type: rule.type || 'error'}` is stored in the
rule's slot (resp. the required slot); no exception reaches the caller —
`validate` is a total function into a boolean in this model. -/
theorem validate_throw_treated_as_failed (s : FieldState) (cfg : Validation)
    (et : Option EventType) (sk : Bool)
    (hv : s.validation = some cfg) (hh : holdForSure s.holdValidation et = false) :
    (∀ i r f, (cfg.rules.getD []).get? i = some (some r) → r.validate = some f →
      (f s.value = CheckBehavior.syncThrow ∨ f s.value = CheckBehavior.asyncReject) →
      shouldValidate s.holdValidation et (resolveOn s cfg r) = true →
      (validateE s et sk).result = false ∧
      slotAt ((validateE s et sk).settled.rulesMessages.getD []) i =
        some { message := r.message, type := some (r.type.getD .error) }) ∧
    (∀ r f, cfg.required = some r → requiredTruthy r = true →
      (buildRequiredRule s cfg r).validate = some f →
      (f s.value = CheckBehavior.syncThrow ∨ f s.value = CheckBehavior.asyncReject) →
      shouldValidate s.holdValidation et
        (resolveOn s cfg (buildRequiredRule s cfg r)) = true →
      (validateE s et sk).result = false ∧
      (validateE s et sk).settled.requiredMessage =
        some { message := (buildRequiredRule s cfg r).message,
               type := some ((buildRequiredRule s cfg r).type.getD .error) }) := by
  constructor
  · intro i r f hget hf hthrow hsh
    have hps : (itemSettled r s.value).2 = false := by
      rcases hthrow with h | h <;> simp [itemSettled, hf, h]
    have hmem : (RuleId.idx i, r) ∈ workList s cfg := by
      unfold workList
      refine List.mem_append.mpr (Or.inr ?_)
      simpa using rulesItems_mem_of_get (cfg.rules.getD []) 0 i r hget
    have main := validateE_run_facts s cfg et sk hv hh (RuleId.idx i) r hmem
      (workList_countP_idx s cfg i) hsh
    refine ⟨main.2.1 hps, ?_⟩
    have hslot := main.1
    rw [hps] at hslot
    exact hslot
  · intro r f hreq htr hf hthrow hsh
    have hps : (itemSettled (buildRequiredRule s cfg r) s.value).2 = false := by
      rcases hthrow with h | h <;> simp [itemSettled, hf, h]
    have hmem : (RuleId.required, buildRequiredRule s cfg r) ∈ workList s cfg := by
      unfold workList
      refine List.mem_append.mpr (Or.inl ?_)
      unfold requiredItems
      rw [hreq]
      simp [htr]
    have main := validateE_run_facts s cfg et sk hv hh RuleId.required
      (buildRequiredRule s cfg r) hmem (workList_countP_required s cfg) hsh
    refine ⟨main.2.1 hps, ?_⟩
    have hslot := main.1
    rw [hps] at hslot
    exact hslot

/-- A configured rule whose check throws synchronously. -/
def throwRule : Rule :=
  { message := some "T", type := none,
    validate := some (fun _ => CheckBehavior.syncThrow),
    typeIfPassed := none, validateOn := none }

/-- A validation config with that one rule and nothing else. -/
def throwRuleConfig : Validation :=
  { rules := some [some throwRule], required := none, validateOn := none,
    requiredValidate := none, requiredMessage := none }

/-- Fresh field with the throwing rule configured. -/
def throwState : FieldState :=
  (step (initState none JSValue.undef) (.setValidation (some throwRuleConfig))).1

theorem validate_throw_treated_as_failed_witness :
    (validateE throwState none false).result = false ∧
    slotAt ((validateE throwState none false).settled.rulesMessages.getD []) 0 =
      some { message := some "T", type := some .error } :=
  (validate_throw_treated_as_failed throwState throwRuleConfig none false rfl rfl).1
    0 throwRule (fun _ => CheckBehavior.syncThrow) rfl rfl (Or.inl rfl) rfl

theorem mem_requiredItems (s : FieldState) (cfg : Validation) (p : RuleId × Rule)
    (hp : p ∈ requiredItems s cfg) :
    ∃ r, cfg.required = some r ∧ requiredTruthy r = true ∧
      p = (RuleId.required, buildRequiredRule s cfg r) := by
  unfold requiredItems at hp
  split at hp
  · rename_i r hre
    split at hp
    · rename_i htr
      exact ⟨r, hre, htr, List.mem_singleton.mp hp⟩
    · simp at hp
  · simp at hp

/-- The run condition of the amended C5, written out from the spec's words:
the resolved trigger — the rule's own `validateOn`, else the config-level one,
else the parent entity's, else `'demand'` — must equal the given event type
(`'touch'` also satisfying `'change'`); with no event type the rule runs
unless a list-form `holdValidation` lists the resolved trigger. -/
def claimShouldRun (s : FieldState) (cfg : Validation) (et : Option EventType)
    (r : Rule) : Prop :=
  match et with
  | some e => resolveOn s cfg r = e ∨ (e = EventType.touch ∧ resolveOn s cfg r = EventType.change)
  | none =>
    match s.holdValidation with
    | .hlist l => resolveOn s cfg r ∉ l
    | .hbool _ => True

theorem claimShouldRun_iff (s : FieldState) (cfg : Validation) (et : Option EventType)
    (r : Rule) :
    claimShouldRun s cfg et r ↔
      shouldValidate s.holdValidation et (resolveOn s cfg r) = true := by
  unfold claimShouldRun shouldValidate
  cases et with
  | some e => simp
  | none =>
      cases s.holdValidation with
      | hbool b => simp
      | hlist l =>
          simp only [List.any_eq_true, decide_eq_true_eq, Bool.not_eq_true',
            Bool.not_eq_true, List.any_eq_false]
          constructor
          · intro hnm x hx he
            exact hnm (he ▸ hx)
          · intro hall hmem
            exact hall _ hmem rfl

/-- C5 counterexample data: a parent entity whose `validationOptions.validateOn`
is `'change'`. -/
def parentChangeOpts : ParentOpts :=
  { validateOn := some .change, requiredValidate := none, requiredMessage := none }

/-- A rule with no `validateOn` of its own (and no check function). -/
def plainRule : Rule :=
  { message := some "R", type := none, validate := none,
    typeIfPassed := none, validateOn := none }

/-- A config with only that rule and no config-level `validateOn`. -/
def plainRuleConfig : Validation :=
  { rules := some [some plainRule], required := none, validateOn := none,
    requiredValidate := none, requiredMessage := none }

/-- Field owned by the parent entity, with the rule configured. -/
def parentDefaultState : FieldState :=
  (step (initState (some parentChangeOpts) (JSValue.num 1))
    (.setValidation (some plainRuleConfig))).1

/-- C5 counterexample: neither the rule nor the config carries a `validateOn`,
so by the claim the resolved trigger is `'demand'` and `validate('demand')`
must run the rule; the code resolves the trigger through the parent entity's
`validationOptions.validateOn` (= `'change'`) and runs nothing. -/
theorem parent_default_trigger_counterexample :
    parentDefaultState.validation = some plainRuleConfig ∧
    plainRule.validateOn = none ∧
    plainRuleConfig.validateOn = none ∧
    parentDefaultState.holdValidation = HoldV.hbool false ∧
    resolveOn parentDefaultState plainRuleConfig plainRule = EventType.change ∧
    (validateE parentDefaultState (some EventType.demand) false).executed = [] :=
  ⟨rfl, rfl, rfl, rfl, rfl, rfl⟩

/-- C5 amended: for a call that is not short-circuited (a config is present
and `holdValidation` does not silence the call), a configured rule's check
runs exactly when `claimShouldRun` holds — the claim's gating with the parent
entity's `validateOn` inserted before the `'demand'` default — and the same
for the required check when it is configured and truthy; an absent or falsy
`required` never runs. -/
theorem validate_rule_trigger_gating (s : FieldState) (cfg : Validation)
    (et : Option EventType) (sk : Bool)
    (hv : s.validation = some cfg) (hh : holdForSure s.holdValidation et = false) :
    (∀ i r, (cfg.rules.getD []).get? i = some (some r) →
      (RuleId.idx i ∈ (validateE s et sk).executed ↔ claimShouldRun s cfg et r)) ∧
    (∀ r, cfg.required = some r → requiredTruthy r = true →
      (RuleId.required ∈ (validateE s et sk).executed ↔
        claimShouldRun s cfg et (buildRequiredRule s cfg r))) ∧
    (cfg.required = none → RuleId.required ∉ (validateE s et sk).executed) ∧
    (∀ r, cfg.required = some r → requiredTruthy r = false →
      RuleId.required ∉ (validateE s et sk).executed) := by
  rw [validateE_executed_eq s cfg et sk hv hh]
  refine ⟨?_, ?_, ?_, ?_⟩
  · intro i r hget
    constructor
    · intro hmem
      obtain ⟨q, hqrs, hqid⟩ := List.mem_map.mp hmem
      obtain ⟨pair, hpe, hpq⟩ := List.mem_map.mp hqrs
      have hid : pair.1 = RuleId.idx i := by
        rw [← hqid, ← hpq]
        rfl
      obtain ⟨hpwl, hpsh⟩ := List.mem_filter.mp hpe
      unfold workList at hpwl
      rcases List.mem_append.mp hpwl with hri | hru
      · obtain ⟨r0, _, _, hpe'⟩ := mem_requiredItems s cfg pair hri
        rw [hpe'] at hid
        simp at hid
      · obtain ⟨k, r', hpair, hget'⟩ := mem_rulesItems _ 0 pair hru
        have hki : k = i := by
          rw [hpair] at hid
          simpa using hid
        subst hki
        have hrr : r' = r := by
          have h2 := hget'.symm.trans (by simpa using hget)
          simpa using h2
        rw [claimShouldRun_iff]
        have hp2 : pair.2 = r := by
          rw [hpair]
          exact hrr
        rw [← hp2]
        exact hpsh
    · intro hrun
      have hsh := (claimShouldRun_iff s cfg et r).mp hrun
      have hmem : (RuleId.idx i, r) ∈ workList s cfg := by
        unfold workList
        refine List.mem_append.mpr (Or.inr ?_)
        simpa using rulesItems_mem_of_get (cfg.rules.getD []) 0 i r hget
      have hqe : (RuleId.idx i, r) ∈ executedItems s cfg et :=
        List.mem_filter.mpr ⟨hmem, hsh⟩
      exact List.mem_map.mpr
        ⟨itemRun s.value (RuleId.idx i, r), List.mem_map.mpr ⟨_, hqe, rfl⟩, rfl⟩
  · intro r hreq htr
    constructor
    · intro hmem
      obtain ⟨q, hqrs, hqid⟩ := List.mem_map.mp hmem
      obtain ⟨pair, hpe, hpq⟩ := List.mem_map.mp hqrs
      have hid : pair.1 = RuleId.required := by
        rw [← hqid, ← hpq]
        rfl
      obtain ⟨hpwl, hpsh⟩ := List.mem_filter.mp hpe
      unfold workList at hpwl
      rcases List.mem_append.mp hpwl with hri | hru
      · obtain ⟨r0, hre0, _, hpe'⟩ := mem_requiredItems s cfg pair hri
        have hr0 : r0 = r := by
          have := hre0.symm.trans hreq
          simpa using this
        rw [claimShouldRun_iff]
        have hp2 : pair.2 = buildRequiredRule s cfg r := by
          rw [hpe', hr0]
        rw [← hp2]
        exact hpsh
      · obtain ⟨k, r', hpair, _⟩ := mem_rulesItems _ 0 pair hru
        rw [hpair] at hid
        simp at hid
    · intro hrun
      have hsh := (claimShouldRun_iff s cfg et (buildRequiredRule s cfg r)).mp hrun
      have hmem : (RuleId.required, buildRequiredRule s cfg r) ∈ workList s cfg := by
        unfold workList
        refine List.mem_append.mpr (Or.inl ?_)
        unfold requiredItems
        rw [hreq]
        simp [htr]
      have hqe : (RuleId.required, buildRequiredRule s cfg r) ∈ executedItems s cfg et :=
        List.mem_filter.mpr ⟨hmem, hsh⟩
      exact List.mem_map.mpr
        ⟨itemRun s.value (RuleId.required, buildRequiredRule s cfg r),
          List.mem_map.mpr ⟨_, hqe, rfl⟩, rfl⟩
  · intro hnone hmem
    obtain ⟨q, hqrs, hqid⟩ := List.mem_map.mp hmem
    obtain ⟨pair, hpe, hpq⟩ := List.mem_map.mp hqrs
    have hid : pair.1 = RuleId.required := by
      rw [← hqid, ← hpq]
      rfl
    obtain ⟨hpwl, _⟩ := List.mem_filter.mp hpe
    unfold workList at hpwl
    rcases List.mem_append.mp hpwl with hri | hru
    · obtain ⟨r0, hre0, _, _⟩ := mem_requiredItems s cfg pair hri
      rw [hnone] at hre0
      simp at hre0
    · obtain ⟨k, r', hpair, _⟩ := mem_rulesItems _ 0 pair hru
      rw [hpair] at hid
      simp at hid
  · intro r hreq hfalse hmem
    obtain ⟨q, hqrs, hqid⟩ := List.mem_map.mp hmem
    obtain ⟨pair, hpe, hpq⟩ := List.mem_map.mp hqrs
    have hid : pair.1 = RuleId.required := by
      rw [← hqid, ← hpq]
      rfl
    obtain ⟨hpwl, _⟩ := List.mem_filter.mp hpe
    unfold workList at hpwl
    rcases List.mem_append.mp hpwl with hri | hru
    · obtain ⟨r0, hre0, htr0, _⟩ := mem_requiredItems s cfg pair hri
      have hr0 : r0 = r := by
        have := hre0.symm.trans hreq
        simpa using this
      rw [hr0] at htr0
      rw [htr0] at hfalse
      exact absurd hfalse (by simp)
    · obtain ⟨k, r', hpair, _⟩ := mem_rulesItems _ 0 pair hru
      rw [hpair] at hid
      simp at hid

/-- A rule gated on the `'touch'` trigger. -/
def touchRule : Rule :=
  { message := some "R", type := none, validate := none,
    typeIfPassed := none, validateOn := some .touch }

/-- A config with that one rule. -/
def touchRuleConfig : Validation :=
  { rules := some [some touchRule], required := none, validateOn := none,
    requiredValidate := none, requiredMessage := none }

/-- Fresh field with the touch-gated rule configured. -/
def touchRuleState : FieldState :=
  (step (initState none JSValue.undef) (.setValidation (some touchRuleConfig))).1

theorem validate_rule_trigger_gating_witness :
    RuleId.idx 0 ∈ (validateE touchRuleState (some EventType.touch) false).executed ∧
    RuleId.idx 0 ∉ (validateE touchRuleState (some EventType.change) false).executed :=
  ⟨((validate_rule_trigger_gating touchRuleState touchRuleConfig
      (some EventType.touch) false rfl rfl).1 0 touchRule rfl).mpr (Or.inl rfl),
   fun hmem =>
    by
      have h := ((validate_rule_trigger_gating touchRuleState touchRuleConfig
        (some EventType.change) false rfl rfl).1 0 touchRule rfl).mp hmem
      rcases h with h1 | ⟨h2, h3⟩
      · exact absurd h1 (by decide)
      · exact absurd h2 (by decide)⟩

/-- Heap of mutable rule objects, addressed by object identity.  This models
the reference structure `_cloneValidation` operates on: rule objects are
mutable JS objects, and the clone is mutation-safe only where it allocates
fresh objects. -/
def RuleHeap : Type := Nat → Rule

/-- `FieldRequired` with a rule object held by reference. -/
inductive RequiredRef where
  | bool (b : Bool)
  | str (s : String)
  | ref (id : Nat)

/-- A validation config as an object graph: the rules array holds rule-object
references, `required` may hold one, scalar fields are plain data. -/
structure ValidationRep where
  rules : Option (List Nat)
  required : Option RequiredRef
  validateOn : Option EventType
  requiredValidate : Option (JSValue → CheckBehavior)
  requiredMessage : Option String

/-- Mutate one rule object in place. -/
def mutateRule (h : RuleHeap) (id : Nat) (r : Rule) : RuleHeap :=
  fun j => if j = id then r else h j

/-- Embedding of `_cloneValidation`: `{...validation}` copies the top-level
fields — a `required` given as a rule object is copied as the same reference —
and when a rules array exists each rule is copied into a fresh object
(`{...rule}`) at ids `fresh, fresh+1, ...`. -/
def cloneValidationRep (h : RuleHeap) (fresh : Nat) (v : ValidationRep) :
    RuleHeap × ValidationRep :=
  match v.rules with
  | none => (h, v)
  | some ids =>
      (fun j => if fresh ≤ j ∧ j < fresh + ids.length then h (ids.getD (j - fresh) 0) else h j,
       { v with rules := some ((List.range ids.length).map (fun k => fresh + k)) })

/-- The rule-object references reachable from a config. -/
def refsOf (v : ValidationRep) : List Nat :=
  (match v.required with
   | some (.ref id) => [id]
   | _ => []) ++ v.rules.getD []

/-- Resolve a required reference to plain data. -/
def interpRequired (h : RuleHeap) (o : Option RequiredRef) : Option Required :=
  match o with
  | some (.bool b) => some (.bool b)
  | some (.str s) => some (.str s)
  | some (.ref id) => some (.rule (h id))
  | none => none

/-- Read a config's object graph back into the plain data `validate` sees. -/
def interpValidation (h : RuleHeap) (v : ValidationRep) : Validation :=
  { rules := v.rules.map (fun ids => ids.map (fun id => some (h id)))
    required := interpRequired h v.required
    validateOn := v.validateOn
    requiredValidate := v.requiredValidate
    requiredMessage := v.requiredMessage }

/-- The required rule's message as `validate` would resolve it. -/
def requiredRuleMessage (v : Validation) : Option String :=
  match v.required with
  | some (.rule r) => r.message
  | _ => none

theorem interpValidation_congr (h1 h2 : RuleHeap) (v : ValidationRep)
    (hagree : ∀ id ∈ refsOf v, h1 id = h2 id) :
    interpValidation h1 v = interpValidation h2 v := by
  unfold interpValidation
  have hrules : v.rules.map (fun ids => ids.map (fun id => some (h1 id))) =
      v.rules.map (fun ids => ids.map (fun id => some (h2 id))) := by
    cases hr : v.rules with
    | none => rfl
    | some ids =>
        simp only [Option.map_some']
        congr 1
        apply List.map_congr_left
        intro id hid
        rw [hagree id (by
          unfold refsOf
          rw [hr]
          exact List.mem_append.mpr (Or.inr (by simpa using hid)))]
  have hreq : interpRequired h1 v.required = interpRequired h2 v.required := by
    cases hq : v.required with
    | none => rfl
    | some rr =>
        cases rr with
        | bool b => rfl
        | str sS => rfl
        | ref id =>
            show some (Required.rule (h1 id)) = some (Required.rule (h2 id))
            rw [hagree id (by
              unfold refsOf
              rw [hq]
              exact List.mem_append.mpr (Or.inl (by simp)))]
  rw [hrules, hreq]

/-- A heap with one plain rule object everywhere. -/
def heap0 : RuleHeap :=
  fun _ =>
    { message := some "orig", type := none, validate := none,
      typeIfPassed := none, validateOn := none }

/-- A mutated rule object. -/
def hackedRule : Rule :=
  { message := some "HACKED", type := none, validate := none,
    typeIfPassed := none, validateOn := none }

/-- A stored config whose `required` is a rule object (reference 0). -/
def sharedReqRep : ValidationRep :=
  { rules := none, required := some (.ref 0), validateOn := none,
    requiredValidate := none, requiredMessage := none }

/-- C8 counterexample: the clone returned by the `validation` getter shares
the `required` rule object with the stored config, so mutating that part of
the returned object changes the internal config (and hence what a subsequent
`validate` resolves). -/
theorem validation_getter_shares_required_ref :
    (cloneValidationRep heap0 100 sharedReqRep).2.required = some (RequiredRef.ref 0) ∧
    0 ∈ refsOf (cloneValidationRep heap0 100 sharedReqRep).2 ∧
    0 ∈ refsOf sharedReqRep ∧
    requiredRuleMessage (interpValidation (mutateRule heap0 0 hackedRule) sharedReqRep) =
      some "HACKED" ∧
    requiredRuleMessage (interpValidation heap0 sharedReqRep) = some "orig" ∧
    interpValidation (mutateRule heap0 0 hackedRule) sharedReqRep ≠
      interpValidation heap0 sharedReqRep := by
  refine ⟨rfl, by decide, by decide, rfl, rfl, ?_⟩
  intro he
  have h2 : (some "HACKED" : Option String) = some "orig" := congrArg requiredRuleMessage he
  exact absurd h2 (by decide)

/-- C8 amended: the clone is mutation-safe for everything it deep-copies —
mutating any freshly allocated rule object of the returned copy leaves the
stored config's resolved data unchanged, and when `required` is not a rule
object the copy shares no rule reference with the stored config at all; only
a `required` given as a rule object is shared by reference (the
counterexample). -/
theorem validation_getter_clone_safety (h : RuleHeap) (v : ValidationRep) (fresh : Nat)
    (hb : ∀ id ∈ refsOf v, id < fresh) :
    (∀ j, fresh ≤ j → ∀ r',
      interpValidation (mutateRule (cloneValidationRep h fresh v).1 j r') v =
        interpValidation (cloneValidationRep h fresh v).1 v) ∧
    ((∀ id, v.required ≠ some (RequiredRef.ref id)) →
      ∀ id ∈ refsOf (cloneValidationRep h fresh v).2, ∀ id' ∈ refsOf v, id ≠ id') := by
  constructor
  · intro j hj r'
    apply interpValidation_congr
    intro id hid
    have hlt : id < fresh := hb id hid
    unfold mutateRule
    rw [if_neg (by omega)]
  · intro hnr id hid id' hid' he
    have hlt : id' < fresh := hb id' hid'
    unfold cloneValidationRep at hid
    cases hr : v.rules with
    | none =>
        rw [hr] at hid
        unfold refsOf at hid
        rcases List.mem_append.mp hid with hL | hR
        · rcases hq : v.required with _ | rr
          · rw [hq] at hL
            simp at hL
          · cases rr with
            | bool b => rw [hq] at hL; simp at hL
            | str sS => rw [hq] at hL; simp at hL
            | ref rid => exact hnr rid hq
        · rw [hr] at hR
          simp at hR
    | some ids =>
        rw [hr] at hid
        unfold refsOf at hid
        rcases List.mem_append.mp hid with hL | hR
        · rcases hq : v.required with _ | rr
          · rw [hq] at hL
            simp at hL
          · cases rr with
            | bool b => rw [hq] at hL; simp at hL
            | str sS => rw [hq] at hL; simp at hL
            | ref rid => exact hnr rid hq
        · simp only [Option.getD_some] at hR
          obtain ⟨k, hk, hke⟩ := List.mem_map.mp hR
          omega
  
/-- The stored config for the clone-safety witness: one rule object (id 0),
`required` given as a boolean. -/
def cloneWitnessRep : ValidationRep :=
  { rules := some [0], required := some (.bool true), validateOn := none,
    requiredValidate := none, requiredMessage := none }

theorem validation_getter_clone_safety_witness :
    interpValidation
      (mutateRule (cloneValidationRep heap0 1 cloneWitnessRep).1 1 hackedRule)
      cloneWitnessRep =
    interpValidation (cloneValidationRep heap0 1 cloneWitnessRep).1 cloneWitnessRep :=
  (validation_getter_clone_safety heap0 cloneWitnessRep 1 (by decide)).1
    1 (Nat.le_refl 1) hackedRule
